import Mathlib

/-!
A verification development for the LSL-PyOptimizer core (lexer/parser,
dead-code removal, library-call optimizer, last pass).  The Python sources
under `lslopt/` are shallowly embedded: AST nodes become an inductive type
whose attribute bag mirrors the `nr` record, the symbol table becomes an
insertion-ordered association list of scopes, and each pass becomes an
executable Lean function translated branch-for-branch from the Python.
Machine floats are embedded as exact rationals (every IEEE-754 single value
is a rational and all comparisons the embedded code performs on them are
exact); Python `dict` lookups that would raise `KeyError` are embedded as
`Option` failures.
-/

set_option maxHeartbeats 1000000

namespace LSLOpt

/-- Compile-time LSL values carried by `CONST` tokens and nodes
(`lslcommon`: integer, float, string, key (`Key`), vector, rotation
(`Quaternion`), list).  Floats are exact rationals, see the header. -/
inductive Val : Type where
  | int (i : Int)
  | flt (q : Rat)
  | str (s : String)
  | key (s : String)
  | vec (x y z : Rat)
  | rot (x y z s : Rat)
  | lst (l : List Val)
deriving Repr

/-- The scalar (non-`ch`) attributes of an AST node (`lslcommon.nr`).
Optional attributes that the Python code tests with `hasattr` are `Option`s
(`none` = attribute absent).  `x` is the executed flag `X`: `none` = absent,
`some none` = the provisional Python `None`, `some (some b)` = `True`/`False`.
`typeA` mirrors the separate `type` attribute that `OptimizeArgs` sets
(distinct from the node type `t`).  `lir` is the `LIR` flag. -/
structure NAttrs : Type where
  nt : String
  t : Option String := none
  name : String := ""
  scope : Option Nat := none
  pscope : Nat := 0
  pnames : List String := []
  value : Val := .int 0
  fld : Char := 'x'
  sef : Bool := false
  lir : Bool := false
  typeA : Option String := none
  x : Option (Option Bool) := none
deriving Repr

/-- An AST node: scalar attributes, the optional child list `ch`, and the
optional `orig` attribute (the pre-flattening subtree of a list literal). -/
inductive Node : Type where
  | mk (a : NAttrs) (ch : Option (List Node)) (orig : Option Node) : Node
deriving Repr

def Node.a : Node → NAttrs
  | .mk a _ _ => a

def Node.ch : Node → Option (List Node)
  | .mk _ ch _ => ch

def Node.orig : Node → Option Node
  | .mk _ _ orig => orig

def Node.nt (n : Node) : String := n.a.nt
def Node.t (n : Node) : Option String := n.a.t
def Node.name (n : Node) : String := n.a.name
def Node.scope (n : Node) : Option Nat := n.a.scope
def Node.pscope (n : Node) : Nat := n.a.pscope
def Node.pnames (n : Node) : List String := n.a.pnames
def Node.value (n : Node) : Val := n.a.value
def Node.fldA (n : Node) : Char := n.a.fld
def Node.sef (n : Node) : Bool := n.a.sef
def Node.x (n : Node) : Option (Option Bool) := n.a.x

/-- Replace the scalar attributes of a node. -/
def Node.withA : Node → NAttrs → Node
  | .mk _ ch orig, a => .mk a ch orig

/-- Set the executed flag `X` of a node. -/
def Node.setX (n : Node) (xv : Option (Option Bool)) : Node :=
  n.withA { n.a with x := xv }

/-- Replace the child list of a node. -/
def Node.withCh : Node → Option (List Node) → Node
  | .mk a _ orig, ch => .mk a ch orig

/-- Drop the `orig` attribute of a node (`del new.orig`). -/
def Node.dropOrig : Node → Node
  | .mk a ch _ => .mk a ch none

/-- The children of a node as a plain list (`[]` when `ch` is absent). -/
def Node.chl (n : Node) : List Node := n.ch.getD []

/-- A symbol-table entry (a Python dict in the source).  Fields the source
tests for presence with `in`/`hasattr` are `Option`s or defaulted `Bool`s:
`r` is the read counter `R`, `w` the writer `W` (`some none` = the Python
`False` = "written more than once", `some (some n)` = written exactly once
by node `n`), `fldUsed` the `Fld` flag, `stop` the library `stop` attribute,
`ref` the label reference counter. -/
structure Sym : Type where
  kind : Char := 'v'
  typ : Option String := none
  loc : Option Nat := none
  paramTypes : List String := []
  paramNames : List String := []
  scopeF : Option Nat := none
  ref : Int := 0
  r : Option Nat := none
  w : Option (Option Node) := none
  fldUsed : Bool := false
  stop : Bool := false
deriving Repr

/-- One scope of the symbol table: an insertion-ordered name/entry map. -/
abbrev Scope : Type := List (String × Sym)

/-- The symbol table: a sequence of scopes, scope 0 global. -/
abbrev Symtab : Type := List Scope

/-- `symtab[scope][name]` (`none` where Python raises `KeyError`). -/
def lookupSym (symtab : Symtab) (sc : Nat) (nm : String) : Option Sym :=
  match (List.get? symtab sc : Option Scope) with
  | none => none
  | some scope =>
    match scope.find? (fun p => p.1 == nm) with
    | none => none
    | some p => some p.2

/-- Apply `f` to the entry named `nm` of one scope. -/
def scopeUpd (scope : Scope) (nm : String) (f : Sym → Sym) : Scope :=
  scope.map (fun p => if p.1 == nm then (p.1, f p.2) else p)

/-- Update `symtab[scope][name]` in place; `none` when the entry is absent
(where Python would raise `KeyError`). -/
def updSym (symtab : Symtab) (sc : Nat) (nm : String) (f : Sym → Sym) :
    Option Symtab :=
  match (List.get? symtab sc : Option Scope) with
  | none => none
  | some scope =>
    if (scope.find? (fun p => p.1 == nm)).isSome then
      some (List.set symtab sc (scopeUpd scope nm f))
    else none

/-- The whole compilation state the passes operate on: the top-level tree
(a flat list of `DECL`/`FNDEF`/`STDEF` nodes) and the symbol table. -/
structure St : Type where
  tree : List Node
  symtab : Symtab
deriving Repr

/-! ## `lslfuncopt.py`: argument canonicalization and library-call rewrites -/

/-- `SensorFunctions` (lslfuncopt.py). -/
def SensorFunctions : List String := ["llSensor", "llSensorRepeat"]

/-- `NoKeyOptimizationFunctions` (lslfuncopt.py). -/
def NoKeyOptimizationFunctions : List String :=
  ["llMessageLinked", "llRemoteDataReply"]

/-- The float literal `3.14159` used as the sensor-arc cutoff, as an exact
rational (`3.14159` is below `π`; no IEEE-754 single lies strictly between
them, so comparing against the exact rational agrees with the Python float
comparison on every representable argument). -/
def sensorCutoff : Rat := 314159 / 100000

/-- `params[4].value > 3.14159` for a float-valued constant. -/
def valGtCutoff : Val → Bool
  | .flt q => sensorCutoff < q
  | _ => false

/-- One step of the key-argument loop of `OptimizeArgs`: when the declared
parameter type is `key` and the argument is a `CONST` whose value is not a
truthy key (`lslfuncs.cond(Key(...))`, supplied as the external predicate
`condKey`), replace the value with `u""` and set the node's `type` attribute
to `'string'`. -/
def keyArgStep (condKey : String → Bool) (ty : String) (p : Node) : Node :=
  if ty == "key" then
    if p.nt == "CONST" then
      match p.value with
      | .key s =>
        if !condKey s then
          p.withA { p.a with value := .str "", typeA := some "string" }
        else p
      | .str s =>
        if !condKey s then
          p.withA { p.a with value := .str "", typeA := some "string" }
        else p
      | _ => p
    else p
  else p

/-- `OptimizeArgs(node, sym)` (lslfuncopt.py).  `condKey` stands for the
external `lslfuncs.cond(Key(...))` test (the library-function kernel is an
external collaborator per §1 of the spec).  The function returns the
(possibly) rewritten `FNCALL` node. -/
def OptimizeArgs (condKey : String → Bool) (sym : Sym) (node : Node) : Node :=
  if sym.loc.isSome then
    -- This is a UDF. We can't do anything for these.
    node
  else
    let params := node.chl
    let params :=
      if SensorFunctions.contains node.name then
        match params.get? 4 with
        | some p4 =>
          if p4.nt == "CONST" && p4.t == some "float" && valGtCutoff p4.value
          then List.set params 4 (p4.withA { p4.a with value := .flt 4 })
          else params
        | none => params
      else params
    let types := sym.paramTypes
    let params :=
      if !(NoKeyOptimizationFunctions.contains node.name) then
        (List.range types.length).foldl
          (fun ps i =>
            match types.get? i, ps.get? i with
            | some ty, some p => List.set ps i (keyArgStep condKey ty p)
            | _, _ => ps)
          params
      else params
    node.withCh (some params)

/-- Modelled from the spec: `PythonType2LSL` (`lslcommon`, an external
collaborator) maps a compile-time Python value to its LSL type name (§3,
Value types). -/
def PythonType2LSL : Val → String
  | .int _ => "integer"
  | .flt _ => "float"
  | .str _ => "string"
  | .key _ => "key"
  | .vec _ _ _ => "vector"
  | .rot _ _ _ _ => "rotation"
  | .lst _ => "list"

/-- Modelled from the spec: the constant folder's `Cast` helper (the folder
is an external collaborator per §1).  It returns the node unchanged when it
already has the requested type and otherwise wraps it in a `CAST` node to
that type, propagating `SEF` and the executed flag `X` (the `EXPR` wrapper
built by dead-code removal in §4.5.2 must survive the subsequent cleaning,
which deletes children without `X`). -/
def Cast (node : Node) (newtype : String) : Node :=
  if node.t == some newtype then node
  else .mk { nt := "CAST", t := some newtype, sef := node.sef, x := node.x }
    (some [node]) none

/-- Modelled from the spec: `GetListNodeLength` (constant folder, external):
the length of a list-valued node when it can be determined — a `LIST`
constructor or a constant list — and `none` (Python `False`) otherwise
(§4.6 "known-length SEF lists"). -/
def GetListNodeLength (node : Node) : Option Nat :=
  if node.nt == "LIST" then some node.chl.length
  else if node.nt == "CONST" && node.t == some "list" then
    match node.value with
    | .lst l => some l.length
    | _ => none
  else none

/-- Modelled from the spec: `GetListNodeElement` (constant folder, external):
element `i` of a known list node, as either a child node (`LIST`) or a bare
constant value (`CONST`); `none` is Python `False` (not extractable). -/
def GetListNodeElement (node : Node) (i : Nat) : Option (Sum Node Val) :=
  if node.nt == "LIST" then (node.chl.get? i).map Sum.inl
  else if node.nt == "CONST" && node.t == some "list" then
    match node.value with
    | .lst l => (l.get? i).map Sum.inr
    | _ => none
  else none

/-- `CastDL2S(self, node, index)` (lslfuncopt.py): cast a list element to
string, wrapping it in a list first when it is a vector or rotation.
`none` where the Python `assert elem is not False` would fail. -/
def CastDL2S (node : Node) (index : Nat) : Option Node :=
  match GetListNodeElement node index with
  | none => none
  | some elem =>
    let elem : Node :=
      match elem with
      | .inl n => n
      | .inr v =>
        .mk { nt := "CONST", t := some (PythonType2LSL v), sef := true,
              value := v } none none
    if elem.t == some "vector" || elem.t == some "rotation" then
      some (Cast (Cast elem "list") "string")
    else some (Cast elem "string")

/-- `sep` is a constant empty string/key: the guard of the
`llDumpList2String(expr, "")` branch of `OptimizeFunc`. -/
def emptyConstSep (sep : Node) : Bool :=
  sep.nt == "CONST" && (sep.t == some "string" || sep.t == some "key") &&
  (match sep.value with
   | .str s => s == ""
   | .key s => s == ""
   | _ => false)

/-- The inner while loop of the sum-of-strings expansion of
`llDumpList2String` (lslfuncopt.py lines 241–250). -/
def dumpSumLoop (c0 sep : Node) (newnode : Node) : Nat → Option Node
  | 0 => some newnode
  | i + 1 =>
    match CastDL2S c0 i with
    | none => none
    | some lhs =>
      dumpSumLoop c0 sep
        (.mk { nt := "+", t := some "string", sef := true }
          (some [lhs,
                 .mk { nt := "+", t := some "string", sef := true }
                   (some [Cast sep "string", newnode]) none]) none) i

/-- The `llDumpList2String` branch of `OptimizeFunc` (lslfuncopt.py,
lines 165-254), which is the whole effect of `OptimizeFunc` on a call to
`llDumpList2String` (the remaining branches of the source function dispatch
on other function names).  The final `self.FoldTree` re-fold of the
sum-of-strings result belongs to the external constant folder (per spec
section 1) and is modelled as the identity. -/
def OptimizeFuncDumpList2String (node : Node) : Node :=
  let child := node.chl
  match child.get? 0, child.get? 1 with
  | some c0, some c1 =>
    if emptyConstSep c1 then
      -- Convert llDumpList2String(expr, "") to (string)(expr)
      (node.withA { node.a with nt := "CAST", name := "" }).withCh
        (some [c0])
    else
      match GetListNodeLength c0 with
      | none =>
        -- Can't identify the length, which means we can't optimize.
        node
      | some list_len =>
        if list_len == 1 && c1.sef then
          -- A single-element list can always be transformed regardless of
          -- the presence of function calls with side effects
          match CastDL2S c0 0 with
          | some newnode => newnode
          | none => node
        else if node.sef then
          if list_len == 0 then
            -- Empty list -> empty string, no matter the separator.
            .mk { nt := "CONST", t := some "string", value := .str "",
                  sef := true } none none
          else if !(c1.nt == "CONST" || c1.nt == "IDENT") then
            -- Only optimize if the second param is a very simple expression.
            node
          else if decide (10 < list_len) then
            -- Apply a threshold for optimizing as a sum.
            node
          else
            let elems := (List.range list_len).map (GetListNodeElement c0)
            if elems.any (fun e =>
                match e with
                | none => true
                | some (.inl n) => n.t == some "list"
                | some (.inr _) => false) then
              -- An element can't be extracted or is a list.
              node
            else
              -- Optimize to a sum of strings, right-to-left to save stack.
              match CastDL2S c0 (list_len - 1) with
              | none => node
              | some newnode =>
                match dumpSumLoop c0 c1 newnode (list_len - 1) with
                | some newnode => newnode
                | none => node
        else node
  | _, _ => node

/-! ## `lslparse.py` lexer: hexadecimal integer literals -/

/-- Modelled from the spec: `lslfuncs.S32` (external library kernel):
wrap an unbounded integer to a signed 32-bit integer (§3: "integer (32-bit
signed with wrap)"). -/
def S32 (n : Int) : Int := (n + 2 ^ 31) % 2 ^ 32 - 2 ^ 31

/-- `ishex` (lslparse.py). -/
def ishex (c : Char) : Bool :=
  c.isDigit || ('A' ≤ c && c ≤ 'F') || ('a' ≤ c && c ≤ 'f')

/-- The numeric value of one hexadecimal digit. -/
def hexDigitVal (c : Char) : Nat :=
  if c.isDigit then c.toNat - '0'.toNat
  else if 'a' ≤ c && c ≤ 'f' then c.toNat - 'a'.toNat + 10
  else if 'A' ≤ c && c ≤ 'F' then c.toNat - 'A'.toNat + 10
  else 0

/-- `int(number, 16)`: the value of a hex digit string. -/
def hexValue (ds : List Char) : Nat :=
  ds.foldl (fun acc c => 16 * acc + hexDigitVal c) 0

/-- The digit-collecting loop of the `0x` branch of `GetToken`
(lslparse.py lines 657–660): append each further hex digit to `number`
but "don't let it grow more than necessary" (stop growing at 9 chars). -/
def hexAccum (number : List Char) : List Char → List Char
  | [] => number
  | c :: rest =>
    hexAccum (if number.length < 9 then number ++ [c] else number) rest

/-- The `0x…` branch of `GetToken` (lslparse.py lines 647–669), applied to
the stream of hex digits following `0x`: leading zeros are eaten first,
the remaining digits are collected (capped at 9), an all-zero literal
yields `'0'`, a `number` longer than 8 digits yields `-1`, and otherwise
the value is wrapped with `S32`.  The result is the `INTEGER_VALUE` token
payload. -/
def lexHexToken (ds : List Char) : Int :=
  let rest := ds.dropWhile (fun c => c == '0')
  let number := hexAccum [] rest
  let number := if number.isEmpty then ['0'] else number
  if decide (8 < number.length) then -1
  else S32 (hexValue number)

/-! ## `lsllastpass.py`: the last pass

The `optlistadd` list-rewriting branch of `LastPassPreOrder` is controlled
by the `optlistadd` option; this embedding models the pass with that option
off (the state-switch wrapping and the used-library collection, the
behaviours studied here, are identical under either setting: the list
rewrite only replaces list-typed expression nodes). -/

/-- Modelled from the spec: `lslcommon.LSLTypeDefaults` (external): the
default value of each LSL type (§4.6 lists them: `0`, `0.0`, `""`,
`NULL_KEY`/`""`, `ZERO_VECTOR`, `ZERO_ROTATION`; keys default to the empty
key outside LSO mode). -/
def LSLTypeDefaults (t : String) : Val :=
  if t == "integer" then .int 0
  else if t == "float" then .flt 0
  else if t == "string" then .str ""
  else if t == "key" then .key ""
  else if t == "vector" then .vec 0 0 0
  else if t == "rotation" then .rot 0 0 0 1
  else .lst []

/-- The mutable state of the last pass: the symbol table (the wrap appends
a fresh scope), `BadStCh`, and the accumulated `usedlibfuncs`.  `BadStCh`
is deleted by the source after each `FNDEF`'s post-order step and recreated
by the next `FNDEF`'s pre-order step; since function definitions never nest,
keeping the stale value in between is observationally equal. -/
structure LPG : Type where
  symtab : Symtab
  badStCh : Bool
  usedlibfuncs : List String
deriving Repr

/-- Add a name to the `usedlibfuncs` set. -/
def LPG.addLib (g : LPG) (nm : String) : LPG :=
  if g.usedlibfuncs.contains nm then g
  else { g with usedlibfuncs := g.usedlibfuncs ++ [nm] }

/-- `LastPassPreOrder` (lsllastpass.py lines 30–114, `optlistadd` off):
returns the `StChAreBad` subtree flag for the children and the updated
global state.  A `FNCALL` whose name has no entry in scope 0 cannot occur
in a parsed tree; such calls are ignored here. -/
def LastPassPreOrder (stch : Bool) (g : LPG) (node : Node) : Bool × LPG :=
  if node.nt == "FNDEF" then
    -- StChAreBad will be True if this is a user-defined function.
    (node.scope.isSome, { g with badStCh := false })
  else if node.nt == "IF" then
    (if node.chl.length == 2 then false else stch, g)
  else if node.nt == "DO" || node.nt == "FOR" || node.nt == "WHILE" then
    (false, g)
  else if node.nt == "STSW" then
    (stch, if stch then { g with badStCh := true } else g)
  else if node.nt == "FNCALL" then
    (stch,
      match lookupSym g.symtab 0 node.name with
      | some sym => if sym.loc.isNone then g.addLib node.name else g
      | none => g)
  else (stch, g)

/-- `LastPassPostOrder` (lsllastpass.py lines 116–147): wrap the body of a
user-defined function containing a bad state change in `if (1) { … }`,
appending a synthetic `return` of the type's default value when the
function returns a value. -/
def LastPassPostOrder (g : LPG) (node : Node) : Node × LPG :=
  if node.nt == "FNDEF" then
    if node.scope.isSome && g.badStCh then
      match node.chl.get? 0 with
      | none => (node, g)
      | some body =>
        let scope := g.symtab.length
        let g := { g with symtab := g.symtab ++ [([] : Scope)] }
        let inner : List Node :=
          [Node.mk { nt := "IF", t := none }
            (some [Node.mk { nt := "CONST", t := some "integer",
                             value := .int 1, sef := true } none none,
                   body]) none]
        let inner :=
          match node.t with
          | some rt =>
            inner ++ [Node.mk { nt := "RETURN", t := none }
              (some [Node.mk { nt := "CONST", t := some rt, sef := true,
                               value := LSLTypeDefaults rt } none none])
              none]
          | none => inner
        let newbody : Node :=
          .mk { nt := "{}", t := none, scope := some scope } (some inner) none
        (node.withCh (some [newbody]), g)
    else (node, g)
  else (node, g)

mutual

/-- `RecursiveLastPass` (lsllastpass.py lines 150–163): pre-order step on a
copy of `subinfo`, recursion into the children, post-order step. -/
def RecursiveLastPass (stch : Bool) (g : LPG) : Node → Node × LPG
  | .mk a ch orig =>
    let (stch', g) := LastPassPreOrder stch g (.mk a ch orig)
    let (ch', g) :=
      match ch with
      | none => (none, g)
      | some l =>
        let (l', g) := RecursiveLastPassList stch' g l
        (some l', g)
    LastPassPostOrder g (Node.withCh (.mk a ch orig) ch')

def RecursiveLastPassList (stch : Bool) (g : LPG) :
    List Node → List Node × LPG
  | [] => ([], g)
  | n :: rest =>
    let (n', g) := RecursiveLastPass stch g n
    let (rest', g) := RecursiveLastPassList stch g rest
    (n' :: rest', g)

end

/-- `LastPass` (lsllastpass.py lines 165–183): run the recursive pass over
every top-level item and report the used library functions.  The initial
`subinfo` is empty; `StChAreBad` is only ever read under a `FNDEF`, which
sets it, so the initial flag is arbitrary (`false` here). -/
def LastPass (st : St) : St × List String :=
  let g0 : LPG := { symtab := st.symtab, badStCh := false,
                    usedlibfuncs := [] }
  let (tree', g) :=
    st.tree.foldl
      (fun (acc : List Node × LPG) n =>
        let (n', g) := RecursiveLastPass false acc.2 n
        (acc.1 ++ [n'], g))
      ([], g0)
  ({ tree := tree', symtab := g.symtab }, g.usedlibfuncs)

/-! ## `lsldeadcode.py`: dead code removal

The mark phase mutates nodes in place while following `Loc` links across
top-level items, so nodes are addressed by (top-level index, path); a path
step descends either into a child or into the `orig` attribute.  `W`
entries of the symbol table hold the writer node by value; the source holds
a reference, but no code path reads an attribute of `W` that a later
in-place mutation changes (only `X` is ever set on a shared writer, and `X`
of a writer is never read), so the value embedding is observationally
equal. -/

/-- One step of a node address. -/
inductive Step : Type where
  | child (i : Nat)
  | orig
deriving Repr, DecidableEq

/-- The address of a node: a top-level tree index and a path. -/
structure Addr : Type where
  top : Nat
  path : List Step
deriving Repr, DecidableEq

/-- The address of child `i` of the node at `a`. -/
def Addr.child (a : Addr) (i : Nat) : Addr :=
  { a with path := a.path ++ [.child i] }

/-- The address of the `orig` attribute of the node at `a`. -/
def Addr.intoOrig (a : Addr) : Addr :=
  { a with path := a.path ++ [.orig] }

/-- Navigate a path below a node. -/
def getSub : Node → List Step → Option Node
  | n, [] => some n
  | n, .child i :: p =>
    match n.ch with
    | some l =>
      match l.get? i with
      | some c => getSub c p
      | none => none
    | none => none
  | n, .orig :: p =>
    match n.orig with
    | some o => getSub o p
    | none => none

/-- Rebuild a node with the sub-node at a path replaced by `f` of it. -/
def modifySub (f : Node → Node) : Node → List Step → Option Node
  | n, [] => some (f n)
  | n, .child i :: p =>
    match n.ch with
    | some l =>
      match l.get? i with
      | some c =>
        match modifySub f c p with
        | some c' => some (n.withCh (some (l.set i c')))
        | none => none
      | none => none
    | none => none
  | n, .orig :: p =>
    match n.orig with
    | some o =>
      match modifySub f o p with
      | some o' => some (Node.mk n.a n.ch (some o'))
      | none => none
    | none => none

/-- The node at an address. -/
def getNodeAt (st : St) (a : Addr) : Option Node :=
  match (st.tree.get? a.top : Option Node) with
  | some top => getSub top a.path
  | none => none

/-- Apply `f` to the node at an address. -/
def modifyAt (st : St) (a : Addr) (f : Node → Node) : Option St :=
  match (st.tree.get? a.top : Option Node) with
  | some top =>
    match modifySub f top a.path with
    | some top' => some { st with tree := st.tree.set a.top top' }
    | none => none
  | none => none

/-- `node.X = xv` at an address. -/
def St.setXAt (st : St) (a : Addr) (xv : Option (Option Bool)) : Option St :=
  modifyAt st a (fun n => n.setX xv)

/-- `NULL_KEY` (`lslfuncs`). -/
def NULL_KEY : String := "00000000-0000-0000-0000-000000000000"

/-- Shape test for a UUID string. -/
def isUUID (s : String) : Bool :=
  let cs := s.toList
  cs.length == 36 &&
  (List.range 36).all (fun i =>
    match cs.get? i with
    | some c => if i == 8 || i == 13 || i == 18 || i == 23
                then c == '-' else ishex c
    | none => false)

/-- Modelled from the spec: `lslfuncs.cond` (the external arithmetic
kernel, §1): the LSL truth value of a compile-time constant, used by the
mark phase on `IF`/loop conditions (§4.5.1). -/
def condVal : Val → Bool
  | .int i => i != 0
  | .flt q => q != 0
  | .str s => !s.isEmpty
  | .key s => !(s == NULL_KEY) && isUUID s
  | .vec x y z => !(x == 0 && y == 0 && z == 0)
  | .rot x y z s => !(x == 0 && y == 0 && z == 0 && s == 1)
  | .lst l => !l.isEmpty

/-- Python truthiness of a `True`/`False`/`None` value. -/
def truthy : Option Bool → Bool
  | some b => b
  | none => false

/-- Modelled from the spec: `self.assign_ops` (assembled by the optimizer
front-end outside src/): `=` and the compound assignment operators,
including the `extendedassignment` ones (§6). -/
def assignOps : List String :=
  ["=", "+=", "-=", "*=", "/=", "%=", "|=", "&=", "^=", "<<=", ">>="]

/-- The increment-style operators tested alongside `assign_ops`. -/
def incDecOps : List String := ["--V", "++V", "V++", "V--"]

/-- `sym['R'] += 1` / `sym['R'] = 1`. -/
def Sym.bumpR (s : Sym) : Sym := { s with r := some (s.r.getD 0 + 1) }

/-- The fake-write treatment of one element of a flattened list literal's
`orig` (lsldeadcode.py lines 227–241, `IDENT` case): mark the global as
multi-written and force its definition's `X` to `True`. -/
def origIdentWrite (st : St) (subnode : Node) : Option St :=
  if subnode.scope == some 0 then do
    let sym ← lookupSym st.symtab 0 subnode.name
    let symtab ← updSym st.symtab 0 subnode.name
      (fun s => { s with w := some none })
    let loc ← sym.loc
    let tnode ← (st.tree.get? loc : Option Node)
    pure { tree := st.tree.set loc (tnode.setX (some (some true))),
           symtab := symtab }
  else none

/-- The inner loop over a `VECTOR`/`ROTATION` element of `orig`. -/
def origFakeWritesInner (st : St) : List Node → Option St
  | [] => some st
  | sub2 :: rest => do
    let st ← if sub2.nt == "IDENT" then origIdentWrite st sub2 else pure st
    origFakeWritesInner st rest

/-- The loop over the elements of a `LIST`-typed `orig`
(lsldeadcode.py lines 226–241). -/
def origFakeWrites (st : St) : List Node → Option St
  | [] => some st
  | subnode :: rest => do
    let st ←
      if subnode.nt == "IDENT" then origIdentWrite st subnode
      else if subnode.nt == "VECTOR" || subnode.nt == "ROTATION" then
        origFakeWritesInner st subnode.chl
      else pure st
    origFakeWrites st rest

mutual

/-- `MarkReferences(node)` (lsldeadcode.py lines 26–291), on the node at
address `a`.  Returns the Python return value (`True`/`False`/`None`,
embedded as `Option Bool`) and the new state; `none` on fuel exhaustion or
on an operation where the source would raise (`KeyError`, failed `assert`,
missing child). -/
def markRef (fuel : Nat) (st : St) (a : Addr) :
    Option (Option Bool × St) :=
  match fuel with
  | 0 => none
  | fuel + 1 => do
    let node ← getNodeAt st a
    match node.x with
    | some xv => return (xv, st)  -- branch already analyzed
    | none =>
      if node.nt == "STSW" then do
        let st ← st.setXAt a (some (some false))  -- executed, path-breaking
        let sym ← lookupSym st.symtab 0 node.name
        let loc ← sym.loc
        let tnode ← (st.tree.get? loc : Option Node)
        let st ←
          if tnode.x.isNone then do
            let (_, st) ← markRef fuel st ⟨loc, []⟩
            pure st
          else pure st
        return (some false, st)
      else if node.nt == "JUMP" then do
        let st ← st.setXAt a (some (some false))
        let sc ← node.scope
        let symtab ← updSym st.symtab sc node.name Sym.bumpR
        return (some false, { st with symtab })
      else if node.nt == "RETURN" then do
        let st ← st.setXAt a (some (some false))
        match node.ch with
        | some (_ :: _) => do
          let (_, st) ← markRef fuel st (a.child 0)
          return (some false, st)
        | _ => return (some false, st)
      else if node.nt == "IF" then do
        let chList ← node.ch
        let st ← st.setXAt a (some none)  -- provisional
        let (_, st) ← markRef fuel st (a.child 0)
        let condnode ← getNodeAt st (a.child 0)
        if condnode.nt == "CONST" then
          if condVal condnode.value then do
            -- TRUE - 'then' branch always executed.
            let (xv, st) ← markRef fuel st (a.child 1)
            let st ← st.setXAt a (some xv)
            return (xv, st)
          else if chList.length == 3 then do
            -- FALSE - 'else' branch always executed.
            let (xv, st) ← markRef fuel st (a.child 2)
            let st ← st.setXAt a (some xv)
            return (xv, st)
          else do
            let st ← st.setXAt a (some (some true))
            return (some true, st)
        else do
          let (cont, st) ← markRef fuel st (a.child 1)
          if chList.length == 3 then
            if !truthy cont then do
              let (cont, st) ← markRef fuel st (a.child 2)
              let st ← st.setXAt a (some cont)
              return (cont, st)
            else do
              let (_, st) ← markRef fuel st (a.child 2)
              let st ← st.setXAt a (some (some true))
              return (some true, st)
          else do
            let st ← st.setXAt a (some (some true))
            return (some true, st)
      else if node.nt == "WHILE" then do
        let st ← st.setXAt a (some none)  -- provisional
        let (_, st) ← markRef fuel st (a.child 0)
        let c0 ← getNodeAt st (a.child 0)
        if c0.nt == "CONST" then
          if condVal c0.value then do
            -- Infinite loop - executed itself but stops execution.
            let (_, st) ← markRef fuel st (a.child 1)
            let st ← st.setXAt a (some (some false))
            return (some false, st)
          else do
            -- the inside isn't executed at all, so don't mark it
            let st ← st.setXAt a (some (some true))
            return (some true, st)
        else do
          let (_, st) ← markRef fuel st (a.child 1)
          let st ← st.setXAt a (some (some true))
          return (some true, st)
      else if node.nt == "DO" then do
        let st ← st.setXAt a (some none)  -- provisional
        let (r0, st) ← markRef fuel st (a.child 0)
        if !truthy r0 then do
          let st ← st.setXAt a (some (some false))
          return (some false, st)
        else do
          let (_, st) ← markRef fuel st (a.child 1)
          let c1 ← getNodeAt st (a.child 1)
          -- proceeds to the next statement unless it's an infinite loop
          let xv : Option Bool := some (!(c1.nt == "CONST" && condVal c1.value))
          let st ← st.setXAt a (some xv)
          return (xv, st)
      else if node.nt == "FOR" then do
        let st ← st.setXAt a (some none)  -- provisional
        let (_, st) ← markRef fuel st (a.child 0)
        let (_, st) ← markRef fuel st (a.child 1)
        let c1 ← getNodeAt st (a.child 1)
        if c1.nt == "CONST" then
          if condVal c1.value then do
            -- Infinite loop - executed itself but stops execution.
            let st ← st.setXAt a (some (some false))
            let (_, st) ← markRef fuel st (a.child 3)
            let (_, st) ← markRef fuel st (a.child 2)
            let nodeAfter ← getNodeAt st a
            return (nodeAfter.x.getD none, st)
          else do
            -- the body and the iterator aren't executed at all
            let st ← st.setXAt a (some (some true))
            let st ← st.setXAt (a.child 2) (some (some true))
            return (some true, st)
        else do
          let st ← st.setXAt a (some (some true))
          let (_, st) ← markRef fuel st (a.child 3)
          let (_, st) ← markRef fuel st (a.child 2)
          -- Mark the EXPRLIST as always executed, not the subexpressions.
          let st ← st.setXAt (a.child 2) (some (some true))
          return (some true, st)
      else if node.nt == "{}" then do
        let chList ← node.ch
        let st ← st.setXAt a (some none)  -- provisional
        let (continues, st) ←
          markBlock fuel st a (List.range chList.length) (some true)
        let st ← st.setXAt a (some continues)
        return (continues, st)
      else if node.nt == "FNCALL" then do
        let st ← st.setXAt a (some none)  -- provisional
        let sym ← lookupSym st.symtab 0 node.name
        let fdefInfo ←
          match sym.loc with
          | some loc => do
            let fdef ← (st.tree.get? loc : Option Node)
            pure (some (fdef.pscope, fdef.pnames))
          | none => pure (none : Option (Nat × List String))
        let chList ← node.ch
        let st ← markArgs fuel st a fdefInfo chList.length
        match sym.loc with
        | some loc => do
          let tnode ← (st.tree.get? loc : Option Node)
          let st ←
            if tnode.x.isNone then do
              let (_, st) ← markRef fuel st ⟨loc, []⟩
              pure st
            else pure st
          let tnode ← (st.tree.get? loc : Option Node)
          let xv := tnode.x.getD none
          let st ← st.setXAt a (some xv)
          return (xv, st)
        | none => do
          let xv : Option Bool := some (!sym.stop)
          let st ← st.setXAt a (some xv)
          return (xv, st)
      else if node.nt == "DECL" then do
        let sc ← node.scope
        let st ←
          match node.ch with
          | some (c0 :: _) => do
            let symtab ← updSym st.symtab sc node.name
              (fun s => { s with w := some (some c0) })
            pure { st with symtab }
          | some [] => none  -- child[0] raises
          | none => do
            let t ← node.t
            let symtab ← updSym st.symtab sc node.name
              (fun s => { s with w := some (some (.mk
                { nt := "CONST", t := some t, value := LSLTypeDefaults t }
                none none)) })
            pure { st with symtab }
        let st ← st.setXAt a (some (some true))
        match node.ch with
        | some (c0 :: _) =>
          match c0.orig with
          | some _ => do
            let (_, st) ← markRef fuel st (a.child 0).intoOrig
            let origAfter ← getNodeAt st (a.child 0).intoOrig
            let st ← modifyAt st (a.child 0) (fun n => n.setX origAfter.x)
            let st ←
              if origAfter.nt == "LIST" then
                -- Add fake writes to variables used in the original list
                origFakeWrites st origAfter.chl
              else pure st
            return (some true, st)
          | none => do
            let (_, st) ← markRef fuel st (a.child 0)
            return (some true, st)
        | _ => return (some true, st)
      else do
        -- all remaining node types return through the bottom (except '=')
        let st ← st.setXAt a (some none)  -- provisional
        if assignOps.contains node.nt || incDecOps.contains node.nt then do
          let chList ← node.ch
          let ident0 ← chList.get? 0
          let ident ←
            if ident0.nt == "FLD" then ident0.chl.get? 0 else pure ident0
          if ident.nt == "IDENT" then do
            let isc ← ident.scope
            let sym ← lookupSym st.symtab isc ident.name
            let st ←
              if isc == 0 then do
                -- Mark the global first.
                let loc ← sym.loc
                let (_, st) ← markRef fuel st ⟨loc, []⟩
                pure st
              else pure st
            -- at least the second write, so mark it as such
            let symtab ← updSym st.symtab isc ident.name
              (fun s => { s with w := some none })
            let st := { st with symtab }
            if node.nt == "=" then do
              -- recurse only on the RHS node
              let (_, st) ← markRef fuel st (a.child 1)
              let st ← st.setXAt a (some (some true))
              return (some true, st)
            else do
              let st ← st.setXAt a (some (some true))
              let st ← markSeq fuel st a (List.range chList.length)
              return (some true, st)
          else none  -- assert ident.nt == 'IDENT'
        else if node.nt == "FLD" then do
          let ch0 ← node.chl.get? 0
          let sc0 ← ch0.scope
          let symtab ← updSym st.symtab sc0 ch0.name
            (fun s => { s with fldUsed := true })
          let st := { st with symtab }
          let st ← st.setXAt a (some (some true))
          let st ← markSeq fuel st a (List.range node.chl.length)
          return (some true, st)
        else if node.nt == "IDENT" then do
          let sc ← node.scope
          let sym ← lookupSym st.symtab sc node.name
          let st ←
            if sym.w.isNone && sc == 0 then do
              -- Mark global if it's one.
              let loc ← sym.loc
              let (_, st) ← markRef fuel st ⟨loc, []⟩
              pure st
            else pure st
          -- Increase read counter
          let symtab ← updSym st.symtab sc node.name Sym.bumpR
          let st := { st with symtab }
          let st ← st.setXAt a (some (some true))
          let st ← markSeq fuel st a (List.range node.chl.length)
          return (some true, st)
        else do
          let st ← st.setXAt a (some (some true))
          let st ← markSeq fuel st a (List.range node.chl.length)
          return (some true, st)
termination_by (fuel, 0, 0)

/-- The statement loop of the `{}` branch, over the child indices: after a
non-falling-through statement only `@` labels are marked, until one of
them falls through. -/
def markBlock (fuel : Nat) (st : St) (a : Addr) (idxs : List Nat)
    (continues : Option Bool) : Option (Option Bool × St) :=
  match idxs with
  | [] => return (continues, st)
  | i :: rest => do
    let stmt ← getNodeAt st (a.child i)
    if truthy continues || stmt.nt == "@" then do
      let (continues, st) ← markRef fuel st (a.child i)
      markBlock fuel st a rest continues
    else markBlock fuel st a rest continues
termination_by (fuel, 2, idxs.length)

/-- The right-to-left argument loop of the `FNCALL` branch: mark each
argument and record a multi-write on the corresponding parameter of a
user-defined callee. -/
def markArgs (fuel : Nat) (st : St) (a : Addr)
    (fdefInfo : Option (Nat × List String)) : Nat → Option St
  | 0 => some st
  | k + 1 => do
    let (_, st) ← markRef fuel st (a.child k)
    let st ←
      match fdefInfo with
      | some (pscope, pnames) => do
        let pname ← pnames.get? k
        let symtab ← updSym st.symtab pscope pname
          (fun s => { s with w := some none })
        pure { st with symtab }
      | none => pure st
    markArgs fuel st a fdefInfo k
termination_by k => (fuel, 2, k)

/-- The common tail `for subnode in child: self.MarkReferences(subnode)`,
over the child indices. -/
def markSeq (fuel : Nat) (st : St) (a : Addr) : List Nat → Option St
  | [] => some st
  | i :: rest => do
    let (_, st) ← markRef fuel st (a.child i)
    markSeq fuel st a rest
termination_by idxs => (fuel, 2, idxs.length)

end

/-- `len(node.value)` when the value is a list (only evaluated by
`OKtoRemoveSymbol` under a `tcurnode == 'list'` guard). -/
def valListLen : Val → Nat
  | .lst l => l.length
  | _ => 0

/-- `type(node.value) == int`. -/
def valueIsInt : Val → Bool
  | .int _ => true
  | _ => false

/-- `OKtoRemoveSymbol(curnode)` (lsldeadcode.py lines 293–388): returns
the symbol-table entry when the symbol named by `curnode` is to be removed
or replaced, and `none` (the Python `False`, merged with a would-be
`KeyError` on a malformed node) otherwise.  The expression branch keeps the
source's `if True or not self.shrinknames or not node.SEF` kill switch. -/
def OKtoRemoveSymbol (shrinknames : Bool) (symtab : Symtab)
    (curnode : Node) : Option Sym :=
  match curnode.scope with
  | none => none
  | some sc =>
    match lookupSym symtab sc curnode.name with
    | none => none
    | some sym =>
      if sym.r.isNone then some sym  -- if not used, it can be removed
      else
        -- Event parameters do not have 'W' in sym.
        match sym.w with
        | none => none
        | some none => none  -- written more than once
        | some (some node) =>
          if node.nt == "CONST" then
            match curnode.t with
            | none => none
            | some tcurnode =>
              if tcurnode == "integer" || tcurnode == "string" ||
                 tcurnode == "key" then some sym
              else if tcurnode == "float" then
                if sym.r.getD 0 ≤ 3 || valueIsInt node.value then some sym
                else none
              else if tcurnode == "vector" ||
                      (tcurnode == "list" && valListLen node.value ≤ 3) then
                if sym.r.getD 0 ≤ 1 then some sym else none
              else if tcurnode == "rotation" ||
                      (tcurnode == "list" && valListLen node.value ≤ 4) then
                if sym.r.getD 0 ≤ 1 then some sym else none
              else none
          else
            -- Expressions MUST be side-effect free and shrinknames-renamed;
            -- the guard is disabled outright in the source pending a CFG.
            if true || !shrinknames || !node.sef then none
            else
              if !(node.nt == "VECTOR" || node.nt == "ROTATION") &&
                 sym.fldUsed then none
              else if sym.r.getD 0 == 1 then some sym
              else none

/-- `nr(nt=';', t=None, X=True, SEF=True)`: the replacement for a removed
mandatory substatement. -/
def semiNode : Node :=
  .mk { nt := ";", t := none, x := some (some true), sef := true } none none

/-- `nr(nt='CONST', X=True, SEF=True, t='integer', value=0)`: the
replacement for a removed mandatory `DO` condition. -/
def zeroNode : Node :=
  .mk { nt := "CONST", t := some "integer", value := .int 0,
        x := some (some true), sef := true } none none

/-- `'xyzs'.index(fld)`. -/
def fldIndex (c : Char) : Option Nat :=
  if c == 'x' then some 0
  else if c == 'y' then some 1
  else if c == 'z' then some 2
  else if c == 's' then some 3
  else none

/-- The `fieldidx` component of a constant vector/rotation value. -/
def valComponent : Val → Nat → Option Val
  | .vec x y z, i => ([Val.flt x, Val.flt y, Val.flt z].get? i)
  | .rot x y z s, i => ([Val.flt x, Val.flt y, Val.flt z, Val.flt s].get? i)
  | _, _ => none

/-- The result of the per-child transformation step of `CleanNode`. -/
inductive CleanStep : Type where
  | deleted
  | keep (n : Node) (symtab : Symtab)
  | err

/-- The body of `CleanNode`'s surviving-child branches
(lsldeadcode.py lines 428–497): `DECL` removal or `EXPR`-wrapping, `FLD`
and `IDENT` inlining, assignment-to-removable replacement, and `;`/`0`
substitution for removed mandatory substatements.  `err` stands for a
Python exception (failed `assert`, `KeyError`, bad index). -/
def transformStep (shrinknames : Bool) (symtab : Symtab) (node : Node) :
    CleanStep :=
  if node.nt == "DECL" then
    match OKtoRemoveSymbol shrinknames symtab node with
    | some _ =>
      if node.chl.isEmpty || ((node.chl.get? 0).map Node.sef).getD false then
        .deleted
      else
        match node.chl.get? 0, node.t with
        | some c0, some t =>
          .keep (.mk { nt := "EXPR", t := node.t } (some [Cast c0 t]) none)
            symtab
        | _, _ => .err
    | none => .keep node symtab
  else if node.nt == "FLD" then
    match node.chl.get? 0 with
    | none => .err
    | some id0 =>
      match OKtoRemoveSymbol shrinknames symtab id0 with
      | none => .keep node symtab
      | some sym =>
        match sym.w, id0.scope with
        | some (some value), some sc =>
          -- Mark the writer as executed, so it isn't optimized out.
          let value := value.setX (some (some true))
          let symtab :=
            match updSym symtab sc id0.name
                (fun s => { s with w := some (some value) }) with
            | some symtab' => symtab'
            | none => symtab
          match fldIndex node.fldA with
          | none => .err
          | some fieldidx =>
            if value.nt == "CONST" then
              match valComponent value.value fieldidx with
              | none => .err
              | some v =>
                let cnode : Node := .mk
                  { nt := "CONST", x := some (some true), sef := true,
                    t := some (PythonType2LSL v), value := v } none none
                let cnode := Cast cnode "float"
                .keep (cnode.withA { cnode.a with sef := true }) symtab
            else
              -- assumed VECTOR or ROTATION per OKtoRemoveSymbol
              match value.chl.get? fieldidx with
              | none => .err
              | some comp =>
                let res := Cast comp "float"
                .keep (res.withA { res.a with sef := value.sef }) symtab
        | _, _ => .err
  else if node.nt == "IDENT" then
    match OKtoRemoveSymbol shrinknames symtab node with
    | none => .keep node symtab
    | some sym =>
      match sym.w with
      | some (some w) =>
        -- Make shallow copy; delete orig if present; mark as executed.
        let new := (w.dropOrig).setX (some (some true))
        match node.t with
        | some t => .keep (Cast new t) symtab
        | none => if new.t.isNone then .keep new symtab else .err
      | _ => .err  -- assert sym.get('W', False) is not False
  else if assignOps.contains node.nt then
    match node.chl.get? 0 with
    | none => .err
    | some id0 =>
      match (if id0.nt == "FLD" then id0.chl.get? 0 else some id0) with
      | none => .err
      | some ident =>
        match OKtoRemoveSymbol shrinknames symtab ident with
        | none => .keep node symtab
        | some _ =>
          match node.chl.get? 1, node.t with
          | some rhs, some t => .keep (Cast rhs t) symtab
          | _, _ => .err
  else if node.nt == "IF" || node.nt == "WHILE" || node.nt == "DO" ||
          node.nt == "FOR" then
    -- If the mandatory statement is to be removed, replace it with a ;
    let idx := if node.nt == "FOR" then 3 else if node.nt == "DO" then 0
               else 1
    match node.chl.get? idx with
    | none => .err
    | some mand =>
      let ch := if mand.x.isNone then node.chl.set idx semiNode
                else node.chl
      if node.nt == "DO" then
        match ch.get? 1 with
        | none => .err
        | some c1 =>
          let ch := if c1.x.isNone then ch.set 1 zeroNode else ch
          .keep (node.withCh (some ch)) symtab
      else .keep (node.withCh (some ch)) symtab
  else .keep node symtab

mutual

/-- `CleanNode(curnode, isFnDef)` (lsldeadcode.py lines 390–500):
recursively delete unexecuted children (decrementing a deleted `JUMP`'s
label `ref`), apply the per-child rewrites, and recurse. -/
def cleanNode (fuel : Nat) (shrinknames : Bool) (symtab : Symtab)
    (curnode : Node) (isFnDef : Bool) : Option (Node × Symtab) :=
  match fuel with
  | 0 => none
  | fuel + 1 =>
    match curnode.ch with
    | none => some (curnode, symtab)
    | some chList =>
      if curnode.nt == "DECL" && curnode.scope == some 0 then
        some (curnode, symtab)
      else if assignOps.contains curnode.nt then
        -- don't recurse into lvalues
        match chList with
        | [] => some (curnode, symtab)
        | c0 :: rest => do
          let (rest', symtab) ←
            cleanChildren fuel shrinknames symtab curnode.nt isFnDef rest
          pure (curnode.withCh (some (c0 :: rest')), symtab)
      else do
        let (ch', symtab) ←
          cleanChildren fuel shrinknames symtab curnode.nt isFnDef chList
        pure (curnode.withCh (some ch'), symtab)
termination_by (fuel, 0, 0)

/-- The child loop of `CleanNode`: `parentNT` is `curnode.nt`, and the tail
of the list stands in for the index (`rest.isEmpty` iff the child is last,
which the live index comparison in the source also tests). -/
def cleanChildren (fuel : Nat) (shrinknames : Bool) (symtab : Symtab)
    (parentNT : String) (isFnDef : Bool) :
    List Node → Option (List Node × Symtab)
  | [] => some ([], symtab)
  | node :: rest =>
    if node.x.isNone && !(parentNT == "RETURN") &&
       !(node.nt == "RETURN" && rest.isEmpty && isFnDef) then do
      -- delete the unexecuted child
      let symtab ←
        if node.nt == "JUMP" then do
          -- Decrease label reference count
          let sc ← node.scope
          let sym ← lookupSym symtab sc node.name
          if decide (0 < sym.ref) then  -- assert
            updSym symtab sc node.name (fun s => { s with ref := s.ref - 1 })
          else none
        else pure symtab
      cleanChildren fuel shrinknames symtab parentNT isFnDef rest
    else
      match transformStep shrinknames symtab node with
      | .deleted =>
        cleanChildren fuel shrinknames symtab parentNT isFnDef rest
      | .err => none
      | .keep node1 symtab => do
        let (node2, symtab) ←
          cleanNode fuel shrinknames symtab node1 (parentNT == "FNDEF")
        let (rest', symtab) ←
          cleanChildren fuel shrinknames symtab parentNT isFnDef rest
        pure (node2 :: rest', symtab)
termination_by l => (fuel, 1, l.length)

end

/-- The main loop of `RemoveDeadCode` (lsldeadcode.py lines 539–562) over
the top-level items, each paired with its original index (the `LocMap`):
unexecuted items and removable global `DECL`s are dropped (recording
`DECL`/`STDEF` names for symbol deletion), the rest are cleaned. -/
def dcrLoop (fuel : Nat) (shrinknames : Bool) (symtab : Symtab) :
    List (Node × Nat) → Option (List (Node × Nat) × List String × Symtab)
  | [] => some ([], [], symtab)
  | (node, i) :: rest =>
    let del : Bool :=
      if node.x.isNone then true
      else if node.nt == "DECL" then
        (OKtoRemoveSymbol shrinknames symtab node).isSome
      else false
    if del then do
      let (rest', gds, symtab) ← dcrLoop fuel shrinknames symtab rest
      let gd := if node.nt == "DECL" || node.nt == "STDEF" then [node.name]
                else []
      pure (rest', gd ++ gds, symtab)
    else do
      let (node', symtab) ← cleanNode fuel shrinknames symtab node false
      let (rest', gds, symtab) ← dcrLoop fuel shrinknames symtab rest
      pure ((node', i) :: rest', gds, symtab)

/-- `RemoveDeadCode()` (lsldeadcode.py lines 503–580), outside calculator
mode: mark everything reachable from state `default`, delete unexecuted
and removable top-level items (cleaning the survivors), delete the
recorded global symbols, and reassign surviving `Loc`s through the
`LocMap` (clearing a `Loc` whose subtree was deleted). -/
def RemoveDeadCode (fuel : Nat) (shrinknames : Bool) (st : St) :
    Option St := do
  let dsym ← lookupSym st.symtab 0 "default"
  let loc ← dsym.loc
  let statedef ← (st.tree.get? loc : Option Node)
  if statedef.nt == "STDEF" && statedef.name == "default" then do
    let (_, st) ← markRef fuel st ⟨loc, []⟩
    let (entries, gdels, symtab) ←
      dcrLoop fuel shrinknames st.symtab
        (st.tree.zip (List.range st.tree.length))
    let locMap := entries.map (fun e => e.2)
    let tree := entries.map (fun e => e.1)
    -- Remove the globals now.
    let symtab : Symtab :=
      match symtab with
      | scope0 :: restScopes =>
        (scope0.filter (fun p => !(gdels.contains p.1))) :: restScopes
      | [] => symtab
    -- Reassign locations.
    let symtab : Symtab :=
      match symtab with
      | scope0 :: restScopes =>
        (scope0.map (fun p =>
          match p.2.loc with
          | some l =>
            match locMap.indexOf? l with
            | some j => (p.1, { p.2 with loc := some j })
            | none => (p.1, { p.2 with loc := none })  -- subtree deleted
          | none => p)) :: restScopes
      | [] => symtab
    pure { tree := tree, symtab := symtab }
  else none

/-! ## `lslparse.py`: the statement parser fragment deciding state changes

This embeds `Parse_code_block` and `Parse_statement` restricted to the
statement forms that decide claim scenarios about state changes inside
user-defined functions: `{}` blocks, `;`, `return [expr];` and
`state X;`.  Every other statement opener is embedded as the syntax-error
fall-through; expressions are restricted to integer literals (the full
recursive-descent chain returns exactly a typed `CONST` for those).  Scope
bookkeeping (`PushScope`/`PopScope`) is omitted: it has no effect on the
embedded branches.  Errors abort the parse, mirroring the exceptions. -/

/-- The tokens needed by the fragment. -/
inductive Tok : Type where
  | lbrace
  | rbrace
  | lparen
  | rparen
  | semi
  | kwReturn
  | kwState
  | kwDefault
  | ident (s : String)
  | evName (s : String)
  | intVal (i : Int)
  | eof
deriving Repr, DecidableEq

/-- The parse errors of the fragment (`EParse…` classes,
lslparse.py lines 60–230). -/
inductive ParseErr : Type where
  | cantChangeState     -- EParseCantChangeState
  | synErr              -- EParseSyntax
  | undefinedName       -- EParseUndefined
  | returnIsEmpty       -- EParseReturnIsEmpty
  | returnShouldBeEmpty -- EParseReturnShouldBeEmpty
  | typeMismatch        -- EParseTypeMismatch
  | alreadyDefined      -- EParseAlreadyDefined
deriving Repr, DecidableEq

/-- The parser state of the fragment: the remaining tokens and the
`PruneBug` buffer of deferred diagnostics. -/
structure PSt : Type where
  toks : List Tok
  pruneBug : List ParseErr
deriving Repr

/-- The current token (`self.tok`). -/
def PSt.cur (st : PSt) : Tok := st.toks.headD .eof

/-- `self.NextToken()`. -/
def PSt.adv (st : PSt) : PSt := { st with toks := st.toks.tail }

/-- `self.expect(tok)`: raise `EParseSyntax` unless the current token
matches. -/
def expectTok (st : PSt) (tk : Tok) : Except ParseErr Unit :=
  if st.cur = tk then .ok () else .error .synErr

/-- `Parse_expression`, restricted to an integer literal: the precedence
chain bottoms out at `INTEGER_VALUE`, producing a typed constant node. -/
def Parse_expression (st : PSt) : Except ParseErr (Node × PSt) :=
  match st.cur with
  | .intVal i =>
    .ok (.mk { nt := "CONST", t := some "integer", value := .int i,
               sef := true } none none, st.adv)
  | _ => .error .synErr

/-- `self.autocastcheck(value, ReturnType)`, restricted to the identity
cast (an `integer` expression returned from an `integer` function). -/
def autocastcheck (value : Node) (rt : String) : Except ParseErr Node :=
  if value.t == some rt then .ok value else .error .typeMismatch

mutual

/-- `Parse_statement(ReturnType, AllowStSw, …)` (lslparse.py
lines 1715–1935) restricted as described above.  `localevents` is `none`
inside a user-defined function (lslparse.py line 2569); `states` is the
set of state names visible in `symtab[0]`/the temp-globals table. -/
def Parse_statement (fuel : Nat) (rt : Option String)
    (allowStSw : Option Bool) (localevents : Option (List String))
    (states : List String) (st : PSt) : Except ParseErr (Node × PSt) :=
  match fuel with
  | 0 => .error .synErr
  | fuel + 1 =>
    match st.cur with
    | .lbrace =>
      Parse_code_block fuel rt allowStSw localevents states st
    | .semi =>
      .ok (.mk { nt := ";", t := none } none none, st.adv)
    | .kwState => do
      let st ←
        if localevents.isNone then
          if allowStSw = some false then .error ParseErr.cantChangeState
          else if allowStSw = none then
            .ok { st with pruneBug := st.pruneBug ++ [.cantChangeState] }
          else .ok st
        else .ok st
      let st := st.adv
      let name ←
        match st.cur with
        | .kwDefault => .ok "default"
        | .ident s => .ok s
        | _ => .error ParseErr.synErr
      -- State Switch only searches for states in the global scope
      if !(states.contains name) then .error .undefinedName
      else do
        let st := st.adv
        let _ ← expectTok st .semi
        let st := st.adv
        .ok (.mk { nt := "STSW", t := none, name := name, scope := some 0 }
          none none, st)
    | .kwReturn => do
      let st := st.adv
      let (value, st) ←
        match st.cur with
        | .semi => .ok ((none : Option Node), st)
        | _ => do
          let (v, st) ← Parse_expression st
          .ok (some v, st)
      let _ ← expectTok st .semi
      let st := st.adv
      match rt, value with
      | none, some v =>
        -- It follows the same rules as AllowStSw
        if allowStSw = some false then .error .returnShouldBeEmpty
        else if v.t.isNone then .error .typeMismatch  -- void-call corner
        else .error .typeMismatch
      | some _, none => .error .returnIsEmpty
      | none, none =>
        .ok (.mk { nt := "RETURN", t := none } none none, st)
      | some rt, some v => do
        let v ← autocastcheck v rt
        -- Sets LastIsReturn flag too
        .ok (.mk { nt := "RETURN", t := none, lir := true } (some [v]) none,
          st)
    | _ => .error .synErr

/-- `Parse_code_block(ReturnType, AllowStSw, …)` (lslparse.py
lines 2280–2323): `{ statements }`, propagating `LIR` from the last
statement. -/
def Parse_code_block (fuel : Nat) (rt : Option String)
    (allowStSw : Option Bool) (localevents : Option (List String))
    (states : List String) (st : PSt) : Except ParseErr (Node × PSt) :=
  match fuel with
  | 0 => .error .synErr
  | fuel + 1 => do
    let _ ← expectTok st .lbrace
    let st := st.adv
    let (body, lir, st) ←
      Parse_statements fuel rt allowStSw localevents states st
    let _ ← expectTok st .rbrace
    let st := st.adv
    let node : Node :=
      .mk { nt := "{}", t := none, scope := some 0, lir := lir }
        (some body) none
    .ok (node, st)

/-- The statement loop of `Parse_code_block`. -/
def Parse_statements (fuel : Nat) (rt : Option String)
    (allowStSw : Option Bool) (localevents : Option (List String))
    (states : List String) (st : PSt) :
    Except ParseErr (List Node × Bool × PSt) :=
  match fuel with
  | 0 => .error .synErr
  | fuel + 1 =>
    match st.cur with
    | .rbrace => .ok ([], false, st)
    | _ => do
      let (stmt, st) ←
        Parse_statement fuel rt allowStSw localevents states st
      let (rest, lirRest, st) ←
        Parse_statements fuel rt allowStSw localevents states st
      .ok (stmt :: rest,
        (if rest.isEmpty then stmt.a.lir else lirRest), st)

end

/-- The token stream of the body of `integer f(){ return 1; state other; }`
as `GetToken` produces it, starting at the opening brace of the function
body (the parse of `integer f(` has consumed the preceding tokens and
enters `Parse_code_block` with `ReturnType='integer'`, `AllowStSw=False`
and `localevents=None`, lslparse.py lines 2562–2576). -/
def bodyToksC6 : List Tok :=
  [.lbrace, .kwReturn, .intVal 1, .semi,
   .kwState, .ident "other", .semi, .rbrace, .eof]

/-! ## `lslparse.py`: the script-level productions over the fragment

`Parse_script` restricted to the statement fragment's token language:
globals are parameterless user-function definitions without a return type
(no `TYPE` tokens occur, so the `TYPE`-led alternatives of the source
grammar never fire and a would-be variable definition falls into the
source's "typeless variables are not allowed" `EParseSyntax` raise);
states are `default` / `state IDENT` headers with parameterless event
handlers whose bodies are the statement fragment.  Scope bookkeeping
follows the source: globals in scope 0, one fresh (empty) parameter scope
pushed per function or handler. -/

/-- The option set of the embedded pipeline: the options consulted by the
embedded stages — `shrinknames` by the dead-code pass (lsldeadcode.py
lines 368–371) and `funcoverride` by `Parse_globals` (lslparse.py lines
2500–2516).  Options that do not reach an embedded branch (`enable_inline`,
`optlistlength`, `optlistadd`, …) are off, as documented at their
stages. -/
structure Options : Type where
  shrinknames : Bool := false
  funcoverride : Bool := false
deriving Repr, DecidableEq

/-- The script-level parser state: remaining tokens, the tree and symbol
table being built, and the `PruneBug` buffer shared with the fragment. -/
structure GSt : Type where
  toks : List Tok
  tree : List Node := []
  symtab : Symtab := [[]]
  pruneBug : List ParseErr := []

/-- The current token (`self.tok`). -/
def GSt.cur (g : GSt) : Tok := g.toks.headD .eof

/-- `self.NextToken()`. -/
def GSt.adv (g : GSt) : GSt := { g with toks := g.toks.tail }

/-- Run a fragment production over the embedded script state. -/
def GSt.run (g : GSt) (p : PSt → Except ParseErr (Node × PSt)) :
    Except ParseErr (Node × GSt) := do
  let (n, st) ← p ⟨g.toks, g.pruneBug⟩
  .ok (n, { g with toks := st.toks, pruneBug := st.pruneBug })

/-- `AddSymbol(kind, scope, name, …)` (lslparse.py): record the entry in
the given scope of the symbol table. -/
def addSymbol (symtab : Symtab) (sc : Nat) (nm : String) (sym : Sym) :
    Symtab :=
  symtab.set sc (symtab.getD sc [] ++ [(nm, sym)])

/-- The `bracelevel` skipping loop of `BuildTempGlobalsTable`
(lslparse.py lines 2744–2751 and 2787–2792): consume tokens while the
brace level is non-zero and `EOF` has not been reached. -/
def skipBraces : Nat → List Tok → List Tok
  | _, [] => []
  | level, t :: rest =>
    if level == 0 || t == .eof then t :: rest
    else
      skipBraces
        (if t == .lbrace then level + 1
         else if t == .rbrace then level - 1 else level) rest

/-- The globals scan of `BuildTempGlobalsTable` (lslparse.py lines
2713–2766) on the embedded token subset: with no `TYPE` tokens, only
parameterless function definitions scan through (their bodies skipped by
brace counting; a lone `inline` marker is consumed as in the source);
every other shape is one of the source's early `return ret` exits, before
any state is scanned — returned as `none`.  Otherwise the suffix where
the state scan starts is returned. -/
def tempGlobalsScan (fuel : Nat) (toks : List Tok) : Option (List Tok) :=
  match fuel with
  | 0 => none
  | fuel + 1 =>
    match toks.headD .eof with
    | .kwDefault => some toks
    | .eof => some toks
    | .ident _ =>
      -- typ is None: no TYPE token can precede in the subset
      let toks := toks.tail
      (match toks.headD .eof with
       | .lparen =>
         let toks := toks.tail
         (match toks.headD .eof with
          | .rparen =>
            let toks := toks.tail
            let toks :=
              (match toks.headD .eof with
               | .ident s => if s == "inline" then toks.tail else toks
               | _ => toks)
            (match toks.headD .eof with
             | .lbrace => tempGlobalsScan fuel (skipBraces 1 toks.tail)
             | _ => none)
          | _ => none)  -- a parameter would need a TYPE
       | _ => none)  -- a variable needs a type
    | _ => none

/-- The state-header scan of `BuildTempGlobalsTable` (lslparse.py lines
2768–2792), collecting the `Kind='s'` names the parser may resolve as
forward state references.  Early exits return what was collected so far,
as in the source. -/
def tempStatesScan (fuel : Nat) (toks : List Tok) (acc : List String) :
    List String :=
  match fuel with
  | 0 => acc
  | fuel + 1 =>
    match toks.headD .eof with
    | .kwDefault =>
      let acc := acc ++ ["default"]
      let toks := toks.tail
      (match toks.headD .eof with
       | .lbrace => tempStatesScan fuel (skipBraces 1 toks.tail) acc
       | _ => acc)
    | .kwState =>
      let toks := toks.tail
      (match toks.headD .eof with
       | .ident name =>
         let acc := acc ++ [name]
         let toks := toks.tail
         (match toks.headD .eof with
          | .lbrace => tempStatesScan fuel (skipBraces 1 toks.tail) acc
          | _ => acc)
       | _ => acc)
    | _ => acc  -- includes EOF: the normal return

/-- `BuildTempGlobalsTable` (lslparse.py lines 2686–2792) on the subset,
reduced to its downstream-visible content: the state names available for
forward references (function entries are resolved through the real symbol
table, which is always populated before the bodies that could consult
them are parsed). -/
def tempGlobalsStates (fuel : Nat) (toks : List Tok) : List String :=
  match tempGlobalsScan fuel toks with
  | some rest => tempStatesScan fuel rest []
  | none => []

/-- Modelled from the spec: the library events table `name → {pt}` (§6,
library metadata; the table lives outside src/).  The lexer only produces
`EVENT_NAME` tokens for table members, so the `none` fall-through is
unreachable on lexer-produced streams. -/
def eventsPT : String → Option (List String)
  | "timer" => some []
  | "state_entry" => some []
  | "touch_start" => some ["integer"]
  | _ => none

/-- The names the `STATE`-switch statement can resolve: any scope-0
symbol, or a `Kind='s'` temp-globals entry (lslparse.py lines
1826–1828). -/
def stswNames (symtab : Symtab) (tempStates : List String) : List String :=
  (symtab.headD []).map Prod.fst ++ tempStates

/-- `Parse_events` (lslparse.py lines 2444–2480) on the subset: a
non-empty run of parameterless handlers.  Each body parses with
`ReturnType=None`, the `AllowStSw=False` default and `localevents` a set,
so `state` statements are legal inside handlers.  The `pt` signature
check compares the empty parameter list against the events table. -/
def Parse_events_sub (fuel : Nat) (tempStates : List String) :
    Nat → List String → GSt → Except ParseErr (List Node × GSt)
  | 0, _, _ => .error .synErr
  | loopFuel + 1, localevents, g =>
    match g.cur with
    | .evName name =>
      let g := g.adv
      if localevents.contains name then .error .alreadyDefined
      else do
        let localevents := localevents ++ [name]
        let _ ← (if g.cur = Tok.lparen then Except.ok ()
                 else .error ParseErr.synErr)
        let g := g.adv
        -- PushScope: the (empty) parameter scope
        let paramscope := g.symtab.length
        let g := { g with symtab := g.symtab ++ [[]] }
        -- no TYPE token: Parse_optional_param_list returns ([], [])
        let _ ← (if g.cur = Tok.rparen then Except.ok ()
                 else .error ParseErr.synErr)
        let g := g.adv
        let _ ← (match eventsPT name with
                 | some [] => Except.ok ()
                 | _ => .error ParseErr.synErr)
        let (body, g) ← g.run (Parse_code_block fuel none (some false)
          (some localevents) (stswNames g.symtab tempStates))
        let ev : Node := .mk
          { nt := "FNDEF", t := none, name := name, pscope := paramscope }
          (some [body]) none
        match g.cur with
        | .evName _ =>
          let (rest, g) ←
            Parse_events_sub fuel tempStates loopFuel localevents g
          .ok (ev :: rest, g)
        | _ => .ok ([ev], g)
    | _ => .error .synErr

/-- `Parse_globals` (lslparse.py lines 2481–2593) on the subset: the loop
sees only `IDENT`-led globals — parameterless function definitions with
`typ = None`; the `=`/`;` variable branch raises `EParseSyntax` for the
missing type (line 2521); the duplicate check honors `funcoverride`
(lines 2500–2516), replacing the overridden definition by a `LAMBDA`
placible and deleting its symbol.  Bodies parse with `ReturnType = typ =
None`, the `AllowStSw=False` default and `localevents = None`. -/
def Parse_globals_sub (fuel : Nat) (opts : Options)
    (tempStates : List String) :
    Nat → GSt → Except ParseErr GSt
  | 0, _ => .error .synErr
  | loopFuel + 1, g =>
    match g.cur with
    | .ident name =>
      let g := g.adv
      do
        let g ←
          match lookupSym g.symtab 0 name with
          | some prev =>
            if opts.funcoverride && g.cur == Tok.lparen
               && prev.kind == 'f' && prev.loc.isSome then
              match prev.loc with
              | some l =>
                Except.ok
                  { g with
                    tree := g.tree.set l
                      (.mk { nt := "LAMBDA", t := none } none none),
                    symtab := g.symtab.set 0
                      ((g.symtab.headD []).filter
                        (fun p => !(p.1 == name))) }
              | none => .error ParseErr.alreadyDefined
            else .error ParseErr.alreadyDefined
          | none => Except.ok g
        match g.cur with
        | .semi =>
          -- a variable definition; typeless variables are not allowed
          .error ParseErr.synErr
        | .lparen =>
          let g := g.adv
          let paramscope := g.symtab.length
          let g := { g with symtab := g.symtab ++ [[]] }
          let _ ← (if g.cur = Tok.rparen then Except.ok ()
                   else .error ParseErr.synErr)
          let g := g.adv
          let (body, g) ← g.run (Parse_code_block fuel none (some false)
            none (stswNames g.symtab tempStates))
          let fsym : Sym :=
            { kind := 'f', typ := none, loc := some g.tree.length,
              paramTypes := [], paramNames := [] }
          let fnode : Node := .mk
            { nt := "FNDEF", t := none, name := name, scope := some 0,
              pscope := paramscope }
            (some [body]) none
          let g :=
            { g with symtab := addSymbol g.symtab 0 name fsym,
                     tree := g.tree ++ [fnode] }
          Parse_globals_sub fuel opts tempStates loopFuel g
        | _ => .error ParseErr.synErr
    | _ => .ok g

/-- `Parse_states` (lslparse.py lines 2594–2637) on the subset: each
state header records the `'s'` symbol (with its `Loc`) before the events
parse, so backward state references resolve through `symtab[0]` and
forward ones through the temp-globals names.  The leading
`expect('DEFAULT')` lives in `Parse_script_sub`. -/
def Parse_states_sub (fuel : Nat) (tempStates : List String) :
    Nat → GSt → Except ParseErr GSt
  | 0, _ => .error .synErr
  | loopFuel + 1, g => do
    let hdr : Option (String × GSt) ←
      match g.cur with
      | .kwDefault => Except.ok (some ("default", g.adv))
      | .kwState =>
        (match g.adv.cur with
         | .ident name => Except.ok (some (name, g.adv.adv))
         | _ => .error ParseErr.synErr)
      | _ => Except.ok none
    match hdr with
    | none => .ok g
    | some (name, gAfter) =>
      if (lookupSym g.symtab 0 name).isSome then .error .alreadyDefined
      else do
        let ssym : Sym := { kind := 's', loc := some gAfter.tree.length }
        let g :=
          { gAfter with symtab := addSymbol gAfter.symtab 0 name ssym }
        let _ ← (if g.cur = Tok.lbrace then Except.ok ()
                 else .error ParseErr.synErr)
        let g := g.adv
        -- self.localevents = set()
        let (events, g) ← Parse_events_sub fuel tempStates fuel [] g
        let _ ← (if g.cur = Tok.rbrace then Except.ok ()
                 else .error ParseErr.synErr)
        let stNode : Node := .mk
          { nt := "STDEF", t := none, name := name, scope := some 0 }
          (some events) none
        let g := { g with tree := g.tree ++ [stNode] }
        let g := g.adv
        Parse_states_sub fuel tempStates loopFuel g

/-- `Parse_script` (lslparse.py lines 2638–2672) on the subset: the
temp-globals pre-pass, globals, states (the first must be `default`,
`expect('DEFAULT')`), then `EOF`.  The fragment has no labels or `jump`s,
so `jump_lookups` stays empty and its resolution loop is a no-op. -/
def Parse_script_sub (fuel : Nat) (opts : Options) (toks : List Tok) :
    Except ParseErr St := do
  let tempStates := tempGlobalsStates fuel toks
  let g : GSt := { toks := toks }
  let g ← Parse_globals_sub fuel opts tempStates fuel g
  let _ ← (if g.cur = Tok.kwDefault then Except.ok ()
           else .error ParseErr.synErr)
  let g ← Parse_states_sub fuel tempStates fuel g
  let _ ← (if g.cur = Tok.eof then Except.ok ()
           else .error ParseErr.synErr)
  .ok { tree := g.tree, symtab := g.symtab }

/-! ## The per-call-site library optimization stage and the full pipeline -/

/-- Modelled from the spec: the per-call-site library optimization stage
(§2 data flow, `typed AST → C6`), invoked on each `FNCALL` during
constant folding (§4.6).  The folder itself is an external collaborator
(not in src/); at every `FNCALL` node this traversal applies the
source-embedded argument canonicalization (`OptimizeArgs`) and the
`llDumpList2String` rewrite (`OptimizeFuncDumpList2String`) when the
call's symbol resolves.  `optlistlength` is off, so the
`llGetListLength` rewrite does not fire; `condKey` is the external `cond`
predicate on keys, as in `OptimizeArgs`. -/
def FoldCalls (condKey : String → Bool) (symtab : Symtab) :
    Nat → Node → Node
  | 0, n => n
  | fuel + 1, n =>
    let n :=
      match n.ch with
      | some l => n.withCh (some (l.map (FoldCalls condKey symtab fuel)))
      | none => n
    if n.nt == "FNCALL" then
      match lookupSym symtab 0 n.name with
      | some sym =>
        let n := OptimizeArgs condKey sym n
        if n.name == "llDumpList2String" then
          OptimizeFuncDumpList2String n
        else n
      | none => n
    else n

/-- The optimization stage over the whole tree. -/
def FoldScript (condKey : String → Bool) (fuel : Nat) (st : St) : St :=
  { st with tree := st.tree.map (FoldCalls condKey st.symtab fuel) }

/-- The per-symbol body of the `Loc` reassignment loop of
`RemoveDeadCode` (lsldeadcode.py lines 571–580): remap a surviving `Loc`
through the `LocMap`, or delete it when the subtree was deleted. -/
def locAssign (locMap : List Nat) (sym : Sym) : Sym :=
  match sym.loc with
  | some l =>
    (match locMap.indexOf? l with
     | some j => { sym with loc := some j }
     | none => { sym with loc := none })
  | none => sym

/-- `RemoveDeadCode()` with the scope-0 dictionary enumeration order made
explicit: the reassignment loop `for name in self.symtab[0]`
(lsldeadcode.py line 571) iterates a Python-2 dict, whose enumeration
order depends on the interpreter's hash seed and is the pipeline's only
run-to-run varying input.  `order` is that enumeration; each visited name
has its entry's `Loc` remapped in place, exactly as in
`RemoveDeadCode`. -/
def RemoveDeadCodeOrd (fuel : Nat) (shrinknames : Bool)
    (order : List String) (st : St) : Option St := do
  let dsym ← lookupSym st.symtab 0 "default"
  let loc ← dsym.loc
  let statedef ← (st.tree.get? loc : Option Node)
  if statedef.nt == "STDEF" && statedef.name == "default" then do
    let (_, st) ← markRef fuel st ⟨loc, []⟩
    let (entries, gdels, symtab) ←
      dcrLoop fuel shrinknames st.symtab
        (st.tree.zip (List.range st.tree.length))
    let locMap := entries.map (fun e => e.2)
    let tree := entries.map (fun e => e.1)
    -- Remove the globals now.
    let symtab : Symtab :=
      match symtab with
      | scope0 :: restScopes =>
        (scope0.filter (fun p => !(gdels.contains p.1))) :: restScopes
      | [] => symtab
    -- Reassign locations, following the dict enumeration order.
    let symtab : Symtab :=
      match symtab with
      | scope0 :: restScopes =>
        (order.foldl (fun s nmv => scopeUpd s nmv (locAssign locMap))
          scope0) :: restScopes
      | [] => symtab
    pure { tree := tree, symtab := symtab }
  else none

/-- The scope-0 dictionary consumed by the reassignment loop: the state
of `self.symtab[0]` after the global deletions, right before
lsldeadcode.py line 571 runs.  Its key list is what a hash enumeration
permutes. -/
def postDelScope0 (fuel : Nat) (shrinknames : Bool) (st : St) :
    Option Scope := do
  let dsym ← lookupSym st.symtab 0 "default"
  let loc ← dsym.loc
  let statedef ← (st.tree.get? loc : Option Node)
  if statedef.nt == "STDEF" && statedef.name == "default" then do
    let (_, st) ← markRef fuel st ⟨loc, []⟩
    let (_, gdels, symtab) ←
      dcrLoop fuel shrinknames st.symtab
        (st.tree.zip (List.range st.tree.length))
    match symtab with
    | scope0 :: _ =>
      pure (scope0.filter (fun p => !(gdels.contains p.1)))
    | [] => none
  else none

/-- The full compilation pipeline of §2's data flow on the embedded
subset: parse (lexer output to typed AST and symbol table), per-call-site
library optimization, dead-code removal, last pass.  `order` is the hash
enumeration order of the scope-0 dict (see `RemoveDeadCodeOrd`); the
used-library set is modeled as its insertion-ordered duplicate-free list
(list equality implies set equality). -/
def PipelineRun (condKey : String → Bool) (fuel : Nat) (opts : Options)
    (order : List String) (toks : List Tok) :
    Option (List Node × Symtab × List String) := do
  let st0 ← (Parse_script_sub fuel opts toks).toOption
  let st1 := FoldScript condKey fuel st0
  let st2 ← RemoveDeadCodeOrd fuel opts.shrinknames order st1
  let (st3, libs) := LastPass st2
  pure (st3.tree, st3.symtab, libs)

/-- The same pipeline with the reference (enumeration-free) dead-code
pass: the yardstick every hash enumeration is proved to agree with. -/
def PipelineRunC (condKey : String → Bool) (fuel : Nat) (opts : Options)
    (toks : List Tok) : Option (List Node × Symtab × List String) := do
  let st0 ← (Parse_script_sub fuel opts toks).toOption
  let st1 := FoldScript condKey fuel st0
  let st2 ← RemoveDeadCode fuel opts.shrinknames st1
  let (st3, libs) := LastPass st2
  pure (st3.tree, st3.symtab, libs)

/-- The key list of the scope-0 dict the pipeline's reassignment loop
enumerates (`none` when the run fails before reaching it). -/
def PipelineDicKeys (condKey : String → Bool) (fuel : Nat)
    (opts : Options) (toks : List Tok) : Option (List String) := do
  let st0 ← (Parse_script_sub fuel opts toks).toOption
  let st1 := FoldScript condKey fuel st0
  let sc0 ← postDelScope0 fuel opts.shrinknames st1
  pure (sc0.map Prod.fst)

/-- The token stream of `f() { ; }  default { timer() { ; } }`: the
unused function's subtree is deleted but its symbol survives (only `DECL`
and `STDEF` names are recorded for deletion), leaving two scope-0 symbols
for the reassignment loop to enumerate. -/
def toksC9 : List Tok :=
  [.ident "f", .lparen, .rparen, .lbrace, .semi, .rbrace,
   .kwDefault, .lbrace,
   .evName "timer", .lparen, .rparen, .lbrace, .semi, .rbrace,
   .rbrace, .eof]

mutual

/-- The number of `JUMP` nodes targeting label `nm` of scope `sc` in a
subtree (descending through `ch` only: `orig` hangs off the tree). -/
def jumpsIn (sc : Nat) (nm : String) : Node → Nat
  | .mk a ch _ =>
    (if a.nt == "JUMP" && a.name == nm && a.scope == some sc then 1 else 0) +
    (match ch with
     | some l => jumpsInList sc nm l
     | none => 0)

/-- `jumpsIn` summed over a list of nodes. -/
def jumpsInList (sc : Nat) (nm : String) : List Node → Nat
  | [] => 0
  | n :: rest => jumpsIn sc nm n + jumpsInList sc nm rest

end

/-- The `ref` count of a label symbol (`0` when absent). -/
def refOf (symtab : Symtab) (sc : Nat) (nm : String) : Int :=
  ((lookupSym symtab sc nm).map Sym.ref).getD 0

mutual

/-- No `JUMP` node anywhere in the subtree (through `ch`). -/
def noJumps : Node → Bool
  | .mk a none _ => !(a.nt == "JUMP")
  | .mk a (some l) _ => !(a.nt == "JUMP") && noJumpsList l

/-- `noJumps` over a list of nodes. -/
def noJumpsList : List Node → Bool
  | [] => true
  | n :: rest => noJumps n && noJumpsList rest

end

/-- Every single-writer node recorded in the symbol table is free of
`JUMP` nodes.  This holds of every state the pipeline builds: writers are
`DECL` initializer expressions, synthesized default constants, or the
multi-write marker, and expressions contain no jump statements. -/
def WJumpFreeB (symtab : Symtab) : Bool :=
  symtab.all (fun scope => scope.all (fun p =>
    match p.2.w with
    | some (some w) => noJumps w
    | _ => true))

mutual

/-- A state-switch statement occurs anywhere in the subtree. -/
def containsSTSW : Node → Bool
  | .mk a none _ => a.nt == "STSW"
  | .mk a (some l) _ => a.nt == "STSW" || containsSTSWList l

/-- `containsSTSW` over a list of nodes. -/
def containsSTSWList : List Node → Bool
  | [] => false
  | n :: rest => containsSTSW n || containsSTSWList rest

end

mutual

/-- A state switch the last pass monitors: the `StChAreBad` flag starts as
`stch` and follows `LastPassPreOrder`'s updates — reset at a nested
`FNDEF` to whether it has a `scope`, cleared under `IF`-without-`else`,
`DO`, `FOR` and `WHILE` — and a `STSW` counts iff the flag is set when it
is reached. -/
def monitoredSTSW (stch : Bool) : Node → Bool
  | .mk a none _ => a.nt == "STSW" && stch
  | .mk a (some l) _ =>
    let stch' :=
      if a.nt == "FNDEF" then a.scope.isSome
      else if a.nt == "IF" then (if l.length == 2 then false else stch)
      else if a.nt == "DO" || a.nt == "FOR" || a.nt == "WHILE" then false
      else stch
    (a.nt == "STSW" && stch) || monitoredSTSWList stch' l

/-- `monitoredSTSW` over a list of nodes. -/
def monitoredSTSWList (stch : Bool) : List Node → Bool
  | [] => false
  | n :: rest => monitoredSTSW stch n || monitoredSTSWList stch rest

end

mutual

/-- No `FNDEF` node anywhere in the subtree (function definitions never
nest in parsed trees). -/
def noFNDEF : Node → Bool
  | .mk a none _ => !(a.nt == "FNDEF")
  | .mk a (some l) _ => !(a.nt == "FNDEF") && noFNDEFList l

/-- `noFNDEF` over a list of nodes. -/
def noFNDEFList : List Node → Bool
  | [] => true
  | n :: rest => noFNDEF n && noFNDEFList rest

end

/-- The replacement body that `LastPassPostOrder` builds around a function
body containing a bad state change: `{ if (1) { body } [return default] }`
in a fresh scope. -/
def wrapBody (scope : Nat) (t : Option String) (body : Node) : Node :=
  let inner : List Node :=
    [Node.mk { nt := "IF", t := none }
      (some [Node.mk { nt := "CONST", t := some "integer",
                       value := .int 1, sef := true } none none,
             body]) none]
  let inner :=
    match t with
    | some rt =>
      inner ++ [Node.mk { nt := "RETURN", t := none }
        (some [Node.mk { nt := "CONST", t := some rt, sef := true,
                         value := LSLTypeDefaults rt } none none])
        none]
    | none => inner
  .mk { nt := "{}", t := none, scope := some scope } (some inner) none

/-! ## Concrete program states used as witnesses and counterexamples -/

/-- The post-parse state of
`f() { @lbl; jump lbl; }  default { timer() { ; } }` :
an unreferenced user function containing a label and a jump to it (the
parse counted the jump: `ref = 1`, lslparse.py lines 1797–1814), and a
reachable `default` state. -/
def stC1 : St :=
  { tree :=
      [.mk { nt := "FNDEF", t := none, name := "f", scope := some 0,
             pscope := 1 }
         (some [.mk { nt := "{}", t := none, scope := some 2 }
           (some [.mk { nt := "@", t := none, name := "lbl",
                        scope := some 2 } none none,
                  .mk { nt := "JUMP", t := none, name := "lbl",
                        scope := some 2 } none none]) none]) none,
       .mk { nt := "STDEF", t := none, name := "default", scope := some 0 }
         (some [.mk { nt := "FNDEF", t := none, name := "timer",
                      pscope := 3 }
           (some [.mk { nt := "{}", t := none, scope := some 4 }
             (some [.mk { nt := ";", t := none } none none]) none])
           none]) none],
    symtab :=
      [[("f", { kind := 'f', typ := none, loc := some 0 }),
        ("default", { kind := 's', loc := some 1 })],
       [],
       [("lbl", { kind := 'l', scopeF := some 2, ref := 1 })],
       [],
       []] }

/-- A user-defined function (`FNDEF` with a `scope` attribute) whose body
contains a state switch only inside a `WHILE` loop:
`f() { while (cond) state default; }` after optimization. -/
def fndefC3 : Node :=
  .mk { nt := "FNDEF", t := none, name := "f", scope := some 0,
        pscope := 1, x := some (some true) }
    (some [.mk { nt := "{}", t := none, scope := some 2,
                 x := some (some true) }
      (some [.mk { nt := "WHILE", t := none, x := some (some true) }
        (some [.mk { nt := "IDENT", t := some "integer", name := "cond",
                     scope := some 0, x := some (some true) } none none,
               .mk { nt := "STSW", t := none, name := "default",
                     scope := some 0, x := some (some false) } none none])
        none]) none]) none

/-- The last-pass global state for running `RecursiveLastPass` on a single
function: an empty five-scope symbol table suffices. -/
def lpgC3 : LPG :=
  { symtab := [[], [], []], badStCh := false, usedlibfuncs := [] }

/-- A call `llDumpList2String([1], llGetSubString(llKey2Name(id), 0, 0))`:
the list has determinable length 1 but the separator expression is not
side-effect-free (`SEF` unset on it and on the call). -/
def dumpCallC5 : Node :=
  .mk { nt := "FNCALL", t := some "string", name := "llDumpList2String" }
    (some [.mk { nt := "LIST", t := some "list", sef := true }
             (some [.mk { nt := "CONST", t := some "integer",
                          value := .int 1, sef := true } none none]) none,
           .mk { nt := "FNCALL", t := some "string", name := "llDialog" }
             (some []) none]) none

/-- A symbol table in which local variable `v` (scope 1) has one reader
and a single writer that is a side-effect-free non-constant expression
(`IDENT i + CONST 1`). -/
def symtabC2 : Symtab :=
  [[],
   [("v", { kind := 'v', typ := some "integer", scopeF := some 1,
            r := some 1,
            w := some (some (.mk { nt := "+", t := some "integer",
                                   sef := true }
              (some [.mk { nt := "IDENT", t := some "integer",
                           name := "i", scope := some 1,
                           sef := true } none none,
                     .mk { nt := "CONST", t := some "integer",
                           value := .int 1, sef := true } none none])
              none)) })]]

/-- A read of `v`: the `IDENT` node handed to `OKtoRemoveSymbol`. -/
def identC2 : Node :=
  .mk { nt := "IDENT", t := some "integer", name := "v", scope := some 1 }
    none none

/-- The library entry for `llSensor` (spec §6: library metadata), which has
no `Loc`. -/
def symSensor : Sym :=
  { kind := 'f', typ := none,
    paramTypes := ["string", "key", "integer", "float", "float"],
    paramNames := ["name", "id", "sensetype", "range", "arc"] }

/-- A call `llSensor("", NULL_KEY, 1, 96.0, arc)` with a float-constant
arc argument. -/
def sensorCall (arc : Rat) : Node :=
  .mk { nt := "FNCALL", t := none, name := "llSensor" }
    (some [.mk { nt := "CONST", t := some "string", value := .str "",
                 sef := true } none none,
           .mk { nt := "CONST", t := some "key", value := .key NULL_KEY,
                 sef := true } none none,
           .mk { nt := "CONST", t := some "integer", value := .int 1,
                 sef := true } none none,
           .mk { nt := "CONST", t := some "float", value := .flt 96,
                 sef := true } none none,
           .mk { nt := "CONST", t := some "float", value := .flt arc,
                 sef := true } none none]) none

/-- A user-defined function symbol (`Loc` present) with key parameters,
and a call to it with an invalid constant key argument — everything the
key-canonicalization would rewrite if it ran on UDFs. -/
def symUdfC10 : Sym :=
  { kind := 'f', typ := some "integer", loc := some 3,
    paramTypes := ["key", "float"], paramNames := ["id", "arc"] }

/-- A call `udf(NULL_KEY, 4.5)` to that user-defined function. -/
def udfCallC10 : Node :=
  .mk { nt := "FNCALL", t := some "integer", name := "udf" }
    (some [.mk { nt := "CONST", t := some "key", value := .key NULL_KEY,
                 sef := true } none none,
           .mk { nt := "CONST", t := some "float", value := .flt (9/2),
                 sef := true } none none]) none

/-- A call `llDumpList2String([1], ",")`: single-element list, plain
side-effect-free constant separator. -/
def dumpCallC5w : Node :=
  .mk { nt := "FNCALL", t := some "string", name := "llDumpList2String",
        sef := true }
    (some [.mk { nt := "LIST", t := some "list", sef := true }
             (some [.mk { nt := "CONST", t := some "integer",
                          value := .int 1, sef := true } none none]) none,
           .mk { nt := "CONST", t := some "string", value := .str ",",
                 sef := true } none none]) none

/-- The state after the mark phase of `RemoveDeadCode` on `stC1`
(`markRef` is what `RemoveDeadCode` runs first, from `default`'s `Loc`,
which is 1). -/
def stmC1 : St :=
  match markRef 20 stC1 ⟨1, []⟩ with
  | some (_, s) => s
  | none => stC1

/-- The state after `RemoveDeadCode` on `stC1`. -/
def stFinalC1 : St := (RemoveDeadCode 20 false stC1).getD stC1

/-- A one-node state whose node already carries `X` (for re-entry tests of
the mark phase). -/
def stC7 : St := { tree := [fndefC3], symtab := [] }

/-- The attributes of `integer g(){ state default; }` reshaped by
optimization: a user-defined function returning `integer`. -/
def attrsC3w : NAttrs :=
  { nt := "FNDEF", t := some "integer", name := "g", scope := some 0,
    pscope := 1 }

/-- A function body whose only statement is a bare state switch. -/
def fndefBodyC3w : Node :=
  .mk { nt := "{}", t := none, scope := some 2 }
    (some [.mk { nt := "STSW", t := none, name := "default",
                 scope := some 0 } none none]) none

/-! ## Supporting lemmas -/

theorem hexAccum_eq (l : List Char) : ∀ acc : List Char,
    acc.length ≤ 9 → hexAccum acc l = acc ++ l.take (9 - acc.length) := by
  induction l with
  | nil => intro acc _; simp [hexAccum]
  | cons c rest ih =>
    intro acc hle
    by_cases hlt : acc.length < 9
    · rw [hexAccum, if_pos hlt, ih _ (by simp; omega)]
      have h9 : 9 - acc.length = (9 - (acc.length + 1)) + 1 := by omega
      simp [h9, List.take_succ_cons]
    · have h9 : acc.length = 9 := by omega
      rw [hexAccum, if_neg hlt, ih _ hle]
      simp [h9]

theorem hexValue_cons_zero (rest : List Char) :
    hexValue ('0' :: rest) = hexValue rest := by
  have h : (fun acc c => 16 * acc + hexDigitVal c) 0 '0' = 0 := by decide
  calc hexValue ('0' :: rest)
      = List.foldl (fun acc c => 16 * acc + hexDigitVal c)
          ((fun acc c => 16 * acc + hexDigitVal c) 0 '0') rest := rfl
    _ = List.foldl (fun acc c => 16 * acc + hexDigitVal c) 0 rest := by
          rw [h]
    _ = hexValue rest := rfl

theorem hexValue_dropZeros (ds : List Char) :
    hexValue (ds.dropWhile (fun c => c == '0')) = hexValue ds := by
  induction ds with
  | nil => rfl
  | cons c rest ih =>
    by_cases h : c = '0'
    · subst h
      rw [List.dropWhile_cons_of_pos (by simp), ih, hexValue_cons_zero]
    · rw [List.dropWhile_cons_of_neg (by simp [h])]

theorem get?_set_self {α : Type _} (l : List α) (i : Nat) (a : α) :
    (l.set i a).get? i = (l.get? i).map (fun _ => a) := by
  simp only [List.get?_eq_getElem?, List.getElem?_set_self']
  rfl

theorem find?_cons_eq {α : Type _} (p : α → Bool) (a : α) (l : List α) :
    (a :: l).find? p = if p a then some a else l.find? p := by
  by_cases h : p a = true
  · rw [List.find?_cons_of_pos _ h, if_pos h]
  · rw [List.find?_cons_of_neg _ (by simpa using h), if_neg h]

theorem find?_scopeUpd (nm nm' : String) (f : Sym → Sym) (scope : Scope) :
    (scopeUpd scope nm f).find? (fun p => p.1 == nm') =
      (if nm' = nm then
        (scope.find? (fun p => p.1 == nm)).map (fun p => (p.1, f p.2))
      else scope.find? (fun p => p.1 == nm')) := by
  induction scope with
  | nil => simp [scopeUpd]
  | cons p rest ih =>
    show ((if p.1 == nm then (p.1, f p.2) else p) ::
      scopeUpd rest nm f).find? (fun q => q.1 == nm') = _
    by_cases h1 : (p.1 == nm) = true
    · rw [if_pos h1, find?_cons_eq]
      by_cases h2 : nm' = nm
      · subst h2
        rw [if_pos (by simpa using h1), if_pos rfl, find?_cons_eq,
          if_pos h1]
        rfl
      · have hne : (p.1 == nm') = false := by
          simp only [beq_eq_false_iff_ne, ne_eq, eq_of_beq h1]
          exact fun hh => h2 hh.symm
        rw [if_neg (by simp [hne]), ih, if_neg h2, if_neg h2,
          find?_cons_eq, if_neg (by simp [hne])]
    · rw [if_neg h1, find?_cons_eq]
      by_cases hp' : (p.1 == nm') = true
      · have h2 : ¬ nm' = nm := by
          intro he
          subst he
          exact h1 hp'
        rw [if_pos hp', if_neg h2, find?_cons_eq, if_pos hp']
      · rw [if_neg (by simpa using hp'), ih]
        by_cases h2 : nm' = nm
        · subst h2
          rw [if_pos rfl, if_pos rfl, find?_cons_eq,
            if_neg (by simpa using h1)]
        · rw [if_neg h2, if_neg h2, find?_cons_eq,
            if_neg (by simpa using hp')]

theorem lookupSym_updSym {symtab symtab' : Symtab} {sc : Nat}
    {nm : String} {f : Sym → Sym}
    (h : updSym symtab sc nm f = some symtab') (sc' : Nat) (nm' : String) :
    lookupSym symtab' sc' nm' =
      (if sc' = sc ∧ nm' = nm then (lookupSym symtab sc nm).map f
      else lookupSym symtab sc' nm') := by
  unfold updSym at h
  cases hg : (List.get? symtab sc : Option Scope) with
  | none => rw [hg] at h; simp at h
  | some scope =>
    rw [hg] at h
    dsimp only at h
    by_cases hf : ((scope.find? (fun p => p.1 == nm)).isSome) = true
    · rw [if_pos hf] at h
      injection h with h
      subst h
      unfold lookupSym
      by_cases hsc : sc' = sc
      · subst hsc
        rw [get?_set_self, hg]
        dsimp only [Option.map]
        rw [find?_scopeUpd]
        by_cases hnm : nm' = nm
        · subst hnm
          rw [if_pos rfl, if_pos ⟨rfl, rfl⟩]
          cases scope.find? (fun p => p.1 == nm') with
          | none => rfl
          | some p => rfl
        · rw [if_neg hnm, if_neg (by simp [hnm])]
      · have hneq : sc ≠ sc' := fun he => hsc he.symm
        rw [List.get?_set_ne _ _ hneq, if_neg (by simp [hsc])]
    · rw [if_neg hf] at h
      simp at h

theorem refOf_updSym_pres {symtab symtab' : Symtab} {sc : Nat}
    {nm : String} {f : Sym → Sym}
    (h : updSym symtab sc nm f = some symtab')
    (hf : ∀ s, (f s).ref = s.ref) (sc' : Nat) (nm' : String) :
    refOf symtab' sc' nm' = refOf symtab sc' nm' := by
  unfold refOf
  rw [lookupSym_updSym h]
  by_cases hc : sc' = sc ∧ nm' = nm
  · obtain ⟨rfl, rfl⟩ := hc
    rw [if_pos ⟨rfl, rfl⟩]
    cases lookupSym symtab sc' nm' with
    | none => rfl
    | some s => simp [hf]
  · rw [if_neg hc]

theorem refOf_updSym_dec {symtab symtab' : Symtab} {sc : Nat}
    {nm : String}
    (h : updSym symtab sc nm (fun s => { s with ref := s.ref - 1 })
      = some symtab') (sc' : Nat) (nm' : String) :
    refOf symtab' sc' nm' =
      (if sc' = sc ∧ nm' = nm ∧ (lookupSym symtab sc nm).isSome then
        refOf symtab sc' nm' - 1
      else refOf symtab sc' nm') := by
  unfold refOf
  rw [lookupSym_updSym h]
  by_cases hc : sc' = sc ∧ nm' = nm
  · obtain ⟨rfl, rfl⟩ := hc
    rw [if_pos ⟨rfl, rfl⟩]
    cases hl : lookupSym symtab sc' nm' with
    | none => rw [if_neg (by simp [hl])]; rfl
    | some s => rw [if_pos (by simp [hl])]; simp [hl]
  · rw [if_neg hc, if_neg (fun hh => hc ⟨hh.1, hh.2.1⟩)]

theorem wjf_lookup {symtab : Symtab} (hW : WJumpFreeB symtab = true)
    {sc : Nat} {nm : String} {sym : Sym} {w : Node}
    (hl : lookupSym symtab sc nm = some sym)
    (hw : sym.w = some (some w)) : noJumps w = true := by
  unfold WJumpFreeB at hW
  unfold lookupSym at hl
  cases hg : (List.get? symtab sc : Option Scope) with
  | none => rw [hg] at hl; exact absurd hl (by simp)
  | some scope =>
    rw [hg] at hl
    dsimp only at hl
    cases hfind : scope.find? (fun p => p.1 == nm) with
    | none => rw [hfind] at hl; exact absurd hl (by simp)
    | some p =>
      rw [hfind] at hl
      injection hl with hl
      have hscope : scope ∈ symtab := List.get?_mem hg
      have hmem : p ∈ scope := List.mem_of_find?_eq_some hfind
      have hpall := (List.all_eq_true.mp
        ((List.all_eq_true.mp hW) scope hscope)) p hmem
      rw [hl, hw] at hpall
      exact hpall

theorem wjf_updSym {symtab symtab' : Symtab} {sc : Nat} {nm : String}
    {f : Sym → Sym}
    (h : updSym symtab sc nm f = some symtab')
    (hW : WJumpFreeB symtab = true)
    (hf : ∀ s, (∀ w, s.w = some (some w) → noJumps w = true) →
      ∀ w, (f s).w = some (some w) → noJumps w = true) :
    WJumpFreeB symtab' = true := by
  unfold updSym at h
  cases hg : (List.get? symtab sc : Option Scope) with
  | none => rw [hg] at h; exact absurd h (by simp)
  | some scope =>
    rw [hg] at h
    dsimp only at h
    by_cases hfind : ((scope.find? (fun p => p.1 == nm)).isSome) = true
    · rw [if_pos hfind] at h
      injection h with h
      subst h
      unfold WJumpFreeB at hW ⊢
      rw [List.all_eq_true] at hW ⊢
      intro s hs
      rcases List.mem_or_eq_of_mem_set hs with hmem | heq
      · exact hW s hmem
      · subst heq
        rw [List.all_eq_true]
        intro q hq
        unfold scopeUpd at hq
        rcases List.mem_map.mp hq with ⟨p, hp, hpe⟩
        have hpfact := (List.all_eq_true.mp
          (hW scope (List.get?_mem hg))) p hp
        by_cases hb : (p.1 == nm) = true
        · rw [← hpe]
          simp only [hb, if_true]
          show (match (f p.2).w with
            | some (some w) => noJumps w
            | _ => true) = true
          cases hfw : (f p.2).w with
          | none => rfl
          | some ow =>
            cases ow with
            | none => rfl
            | some w =>
              exact hf p.2
                (fun w' hw' => by
                  revert hpfact
                  show (match p.2.w with
                    | some (some w) => noJumps w
                    | _ => true) = true → _
                  rw [hw']
                  exact id) w hfw
        · rw [← hpe]
          simp only [hb, Bool.false_eq_true, if_false]
          exact hpfact
    · rw [if_neg hfind] at h
      exact absurd h (by simp)

theorem jumpsIn_setX (sc : Nat) (nm : String) (n : Node)
    (xv : Option (Option Bool)) :
    jumpsIn sc nm (n.setX xv) = jumpsIn sc nm n := by
  cases n with
  | mk a ch orig => cases ch <;> rfl

theorem noJumps_setX (n : Node) (xv : Option (Option Bool)) :
    noJumps (n.setX xv) = noJumps n := by
  cases n with
  | mk a ch orig => cases ch <;> rfl

theorem jumpsIn_dropOrig (sc : Nat) (nm : String) (n : Node) :
    jumpsIn sc nm n.dropOrig = jumpsIn sc nm n := by
  cases n with
  | mk a ch orig => cases ch <;> rfl

theorem jumpsIn_Cast (sc : Nat) (nm : String) (n : Node) (t : String) :
    jumpsIn sc nm (Cast n t) = jumpsIn sc nm n := by
  unfold Cast
  split
  · rfl
  · simp [jumpsIn, jumpsInList]

mutual

theorem jumpsIn_eq_zero (sc : Nat) (nm : String) (n : Node)
    (h : noJumps n = true) : jumpsIn sc nm n = 0 := by
  cases n with
  | mk a ch orig =>
    cases ch with
    | none =>
      simp only [noJumps, Bool.not_eq_true'] at h
      simp [jumpsIn, h]
    | some l =>
      simp only [noJumps, Bool.and_eq_true, Bool.not_eq_true'] at h
      simp [jumpsIn, h.1, jumpsInList_eq_zero sc nm l h.2]
termination_by sizeOf n

theorem jumpsInList_eq_zero (sc : Nat) (nm : String) (l : List Node)
    (h : noJumpsList l = true) : jumpsInList sc nm l = 0 := by
  cases l with
  | nil => rfl
  | cons hd tl =>
    simp only [noJumpsList, Bool.and_eq_true] at h
    simp [jumpsInList, jumpsIn_eq_zero sc nm hd h.1,
      jumpsInList_eq_zero sc nm tl h.2]
termination_by sizeOf l

end

theorem jumpsInList_get_le (sc : Nat) (nm : String) (l : List Node) :
    ∀ (i : Nat) (x : Node), l.get? i = some x →
      jumpsIn sc nm x ≤ jumpsInList sc nm l := by
  induction l with
  | nil => intro i x h; simp at h
  | cons hd tl ih =>
    intro i x h
    rw [jumpsInList]
    cases i with
    | zero =>
      injection h with h
      subst h
      exact Nat.le_add_right _ _
    | succ i => exact le_trans (ih i x h) (Nat.le_add_left _ _)

theorem noJumpsList_get (l : List Node) :
    ∀ (i : Nat) (x : Node), noJumpsList l = true → l.get? i = some x →
      noJumps x = true := by
  induction l with
  | nil => intro i x _ h; simp at h
  | cons hd tl ih =>
    intro i x hall h
    rw [noJumpsList, Bool.and_eq_true] at hall
    cases i with
    | zero => injection h with h; subst h; exact hall.1
    | succ i => exact ih i x hall.2 h

theorem jumpsInList_set_le (sc : Nat) (nm : String) (x : Node)
    (hx : jumpsIn sc nm x = 0) (l : List Node) :
    ∀ i : Nat, jumpsInList sc nm (l.set i x) ≤ jumpsInList sc nm l := by
  induction l with
  | nil => intro i; simp [List.set]
  | cons hd tl ih =>
    intro i
    cases i with
    | zero =>
      simp only [List.set]
      rw [jumpsInList, jumpsInList, hx]
      omega
    | succ i =>
      simp only [List.set]
      rw [jumpsInList, jumpsInList]
      exact Nat.add_le_add_left (ih i) _

theorem jumpsIn_withCh (sc : Nat) (nm : String) (n : Node) (l : List Node) :
    jumpsIn sc nm (n.withCh (some l)) =
      (if n.nt == "JUMP" && n.name == nm && n.scope == some sc then 1
       else 0) + jumpsInList sc nm l := by
  cases n with
  | mk a ch orig =>
    show jumpsIn sc nm (.mk a (some l) orig) = _
    rw [jumpsIn]
    rfl

theorem jumpsIn_withSef (sc : Nat) (nm : String) (n : Node) (b : Bool) :
    jumpsIn sc nm (n.withA { n.a with sef := b }) = jumpsIn sc nm n := by
  cases n with
  | mk a ch orig =>
    cases a with
    | mk nt t name scope pscope pnames value fld sef lir typeA x =>
      show jumpsIn sc nm
        (.mk ⟨nt, t, name, scope, pscope, pnames, value, fld, b, lir,
              typeA, x⟩ ch orig) =
        jumpsIn sc nm
        (.mk ⟨nt, t, name, scope, pscope, pnames, value, fld, sef, lir,
              typeA, x⟩ ch orig)
      rw [jumpsIn.eq_def, jumpsIn.eq_def]

theorem OKtoRemove_lookup {shrinknames : Bool} {symtab : Symtab}
    {curnode : Node} {sym : Sym}
    (h : OKtoRemoveSymbol shrinknames symtab curnode = some sym) :
    ∃ sc, curnode.scope = some sc ∧
      lookupSym symtab sc curnode.name = some sym := by
  unfold OKtoRemoveSymbol at h
  cases hsc : curnode.scope with
  | none => rw [hsc] at h; exact absurd h (by simp)
  | some sc =>
    rw [hsc] at h
    dsimp only at h
    cases hl : lookupSym symtab sc curnode.name with
    | none => rw [hl] at h; exact absurd h (by simp)
    | some sym0 =>
      rw [hl] at h
      dsimp only at h
      refine ⟨sc, rfl, ?_⟩
      rw [hl]
      have hs : sym0 = sym := by
        repeat' split at h
        all_goals
          first
          | exact Option.some.inj h
          | exact absurd h (by simp)
      rw [hs]

theorem setX_nt (n : Node) (xv : Option (Option Bool)) :
    (n.setX xv).nt = n.nt := by
  cases n with | mk a ch orig => rfl

theorem setX_ch (n : Node) (xv : Option (Option Bool)) :
    (n.setX xv).ch = n.ch := by
  cases n with | mk a ch orig => rfl

theorem jumpsIn_not_jump (sc : Nat) (nm : String) (a : NAttrs)
    (ch : Option (List Node)) (orig : Option Node)
    (hnt : (a.nt == "JUMP") = false) :
    jumpsIn sc nm (.mk a ch orig) =
      (match ch with
       | some l => jumpsInList sc nm l
       | none => 0) := by
  rw [jumpsIn.eq_def]
  dsimp only
  rw [hnt]
  simp

theorem jumpsIn_ch_some (sc : Nat) (nm : String) {n : Node}
    {l : List Node} (hch : n.ch = some l) :
    jumpsIn sc nm n =
      (if n.nt == "JUMP" && n.name == nm && n.scope == some sc then 1
       else 0) + jumpsInList sc nm l := by
  cases n with
  | mk a ch orig =>
    simp only [Node.ch] at hch
    subst hch
    rw [jumpsIn.eq_def]
    dsimp only [Node.nt, Node.name, Node.scope, Node.a]

theorem jumpsIn_jump_self (sc : Nat) (nm : String) (n : Node)
    (hnt : (n.nt == "JUMP") = true) (hnm : n.name = nm)
    (hsc : n.scope = some sc) : 1 ≤ jumpsIn sc nm n := by
  cases n with
  | mk a ch orig =>
    simp only [Node.nt, Node.name, Node.scope, Node.a] at hnt hnm hsc
    rw [jumpsIn.eq_def]
    dsimp only
    rw [if_pos (by simp [hnt, hnm, hsc])]
    exact Nat.le_add_right 1 _

theorem ch_of_chl_get {n : Node} {i : Nat} {x : Node}
    (h : n.chl.get? i = some x) :
    ∃ l, n.ch = some l ∧ l.get? i = some x := by
  unfold Node.chl at h
  cases hch : n.ch with
  | none => rw [hch] at h; simp at h
  | some l => rw [hch] at h; exact ⟨l, rfl, h⟩

theorem chl_eq_of_ch {n : Node} {l : List Node} (hch : n.ch = some l) :
    n.chl = l := by
  rw [Node.chl, hch]
  rfl

theorem noJumps_children {n : Node} {l : List Node} (hch : n.ch = some l)
    (h : noJumps n = true) : noJumpsList l = true := by
  cases n with
  | mk a ch orig =>
    simp only [Node.ch] at hch
    subst hch
    rw [noJumps] at h
    simp only [Bool.and_eq_true] at h
    exact h.2

theorem jumpsIn_semiNode (sc : Nat) (nm : String) :
    jumpsIn sc nm semiNode = 0 := by
  rw [semiNode, jumpsIn_not_jump _ _ _ _ _ (by decide)]

theorem jumpsIn_zeroNode (sc : Nat) (nm : String) :
    jumpsIn sc nm zeroNode = 0 := by
  rw [zeroNode, jumpsIn_not_jump _ _ _ _ _ (by decide)]

theorem transformStep_count {shrinknames : Bool} {symtab : Symtab}
    {node n1 : Node} {symtab1 : Symtab}
    (h : transformStep shrinknames symtab node = .keep n1 symtab1)
    (hW : WJumpFreeB symtab = true) :
    (∀ sc nm, jumpsIn sc nm n1 ≤ jumpsIn sc nm node) ∧
    (∀ sc nm, refOf symtab1 sc nm = refOf symtab sc nm) ∧
    WJumpFreeB symtab1 = true := by
  unfold transformStep at h
  by_cases hd : (node.nt == "DECL") = true
  · rw [if_pos hd] at h
    cases hok : OKtoRemoveSymbol shrinknames symtab node with
    | none =>
      rw [hok] at h
      dsimp only at h
      injection h with h1 h2
      subst h1; subst h2
      exact ⟨fun _ _ => le_refl _, fun _ _ => rfl, hW⟩
    | some s =>
      rw [hok] at h
      dsimp only at h
      by_cases he : (node.chl.isEmpty
          || ((node.chl.get? 0).map Node.sef).getD false) = true
      · rw [if_pos he] at h
        exact CleanStep.noConfusion h
      · rw [if_neg he] at h
        cases hc0 : node.chl.get? 0 with
        | none =>
          rw [hc0] at h
          cases ht : node.t with
          | none => rw [ht] at h; exact CleanStep.noConfusion h
          | some t0 => rw [ht] at h; exact CleanStep.noConfusion h
        | some c0 =>
          rw [hc0] at h
          cases ht : node.t with
          | none => rw [ht] at h; dsimp only at h
                    exact CleanStep.noConfusion h
          | some t0 =>
            rw [ht] at h
            dsimp only at h
            injection h with h1 h2
            subst h1; subst h2
            refine ⟨?_, fun _ _ => rfl, hW⟩
            intro sc nm
            obtain ⟨l, hch, hget⟩ := ch_of_chl_get hc0
            rw [jumpsIn_ch_some sc nm hch]
            have hEXPR : jumpsIn sc nm
                (.mk { nt := "EXPR", t := some t0 }
                  (some [Cast c0 t0]) none)
                = jumpsIn sc nm (Cast c0 t0) + 0 := by
              rw [jumpsIn_not_jump _ _ _ _ _ (by rfl)]
              dsimp only
              rw [jumpsInList, jumpsInList]
            rw [hEXPR, jumpsIn_Cast, Nat.add_zero]
            exact le_trans (jumpsInList_get_le sc nm l 0 c0 hget)
              (Nat.le_add_left _ _)
  · rw [if_neg hd] at h
    by_cases hf : (node.nt == "FLD") = true
    · rw [if_pos hf] at h
      cases hc0 : node.chl.get? 0 with
      | none => rw [hc0] at h; exact CleanStep.noConfusion h
      | some id0 =>
        rw [hc0] at h
        dsimp only at h
        cases hok : OKtoRemoveSymbol shrinknames symtab id0 with
        | none =>
          rw [hok] at h
          dsimp only at h
          injection h with h1 h2
          subst h1; subst h2
          exact ⟨fun _ _ => le_refl _, fun _ _ => rfl, hW⟩
        | some sym =>
          rw [hok] at h
          dsimp only at h
          obtain ⟨scl, hscl, hlook⟩ := OKtoRemove_lookup hok
          cases hw : sym.w with
          | none =>
            rw [hw] at h
            dsimp only at h
            exact CleanStep.noConfusion h
          | some ow =>
            cases ow with
            | none =>
              rw [hw] at h
              dsimp only at h
              exact CleanStep.noConfusion h
            | some value =>
              rw [hw] at h
              cases hsc0 : id0.scope with
              | none =>
                rw [hsc0] at h
                dsimp only at h
                exact CleanStep.noConfusion h
              | some sc0 =>
                rw [hsc0] at h
                dsimp only at h
                rw [hsc0] at hscl
                injection hscl with heq
                subst heq
                have hnj : noJumps value = true := wjf_lookup hW hlook hw
                have hnjX : noJumps (value.setX (some (some true))) = true
                  := by rw [noJumps_setX]; exact hnj
                cases hup : updSym symtab sc0 id0.name
                    (fun s => { s with
                      w := some (some (value.setX (some (some true)))) })
                    with
                | none =>
                  rw [hup] at h
                  dsimp only at h
                  cases hfi : fldIndex node.fldA with
                  | none =>
                    rw [hfi] at h
                    exact CleanStep.noConfusion h
                  | some fieldidx =>
                    rw [hfi] at h
                    dsimp only at h
                    by_cases hcon :
                        (((value.setX (some (some true))).nt == "CONST")
                          = true)
                    · rw [if_pos hcon] at h
                      cases hvc : valComponent
                          (value.setX (some (some true))).value fieldidx
                          with
                      | none =>
                        rw [hvc] at h
                        exact CleanStep.noConfusion h
                      | some v =>
                        rw [hvc] at h
                        dsimp only at h
                        injection h with h1 h2
                        subst h1; subst h2
                        refine ⟨?_, fun _ _ => rfl, hW⟩
                        intro sc nm
                        rw [jumpsIn_withSef, jumpsIn_Cast,
                          jumpsIn_not_jump _ _ _ _ _ (by rfl)]
                        exact Nat.zero_le _
                    · rw [if_neg hcon] at h
                      cases hcomp :
                          (value.setX (some (some true))).chl.get? fieldidx
                          with
                      | none =>
                        rw [hcomp] at h
                        exact CleanStep.noConfusion h
                      | some comp =>
                        rw [hcomp] at h
                        dsimp only at h
                        injection h with h1 h2
                        subst h1; subst h2
                        refine ⟨?_, fun _ _ => rfl, hW⟩
                        intro sc nm
                        obtain ⟨l', hch', hget'⟩ := ch_of_chl_get hcomp
                        have hcompnj : noJumps comp = true :=
                          noJumpsList_get l' fieldidx comp
                            (noJumps_children hch' hnjX) hget'
                        rw [jumpsIn_withSef, jumpsIn_Cast,
                          jumpsIn_eq_zero sc nm comp hcompnj]
                        exact Nat.zero_le _
                | some st2 =>
                  rw [hup] at h
                  dsimp only at h
                  have href : ∀ sc' nm',
                      refOf st2 sc' nm' = refOf symtab sc' nm' :=
                    refOf_updSym_pres hup (fun s => rfl)
                  have hwjf2 : WJumpFreeB st2 = true :=
                    wjf_updSym hup hW (fun s _ w' hw' => by
                      injection hw' with hw'
                      injection hw' with hw'
                      rw [← hw']
                      exact hnjX)
                  cases hfi : fldIndex node.fldA with
                  | none =>
                    rw [hfi] at h
                    exact CleanStep.noConfusion h
                  | some fieldidx =>
                    rw [hfi] at h
                    dsimp only at h
                    by_cases hcon :
                        (((value.setX (some (some true))).nt == "CONST")
                          = true)
                    · rw [if_pos hcon] at h
                      cases hvc : valComponent
                          (value.setX (some (some true))).value fieldidx
                          with
                      | none =>
                        rw [hvc] at h
                        exact CleanStep.noConfusion h
                      | some v =>
                        rw [hvc] at h
                        dsimp only at h
                        injection h with h1 h2
                        subst h1; subst h2
                        refine ⟨?_, href, hwjf2⟩
                        intro sc nm
                        rw [jumpsIn_withSef, jumpsIn_Cast,
                          jumpsIn_not_jump _ _ _ _ _ (by rfl)]
                        exact Nat.zero_le _
                    · rw [if_neg hcon] at h
                      cases hcomp :
                          (value.setX (some (some true))).chl.get? fieldidx
                          with
                      | none =>
                        rw [hcomp] at h
                        exact CleanStep.noConfusion h
                      | some comp =>
                        rw [hcomp] at h
                        dsimp only at h
                        injection h with h1 h2
                        subst h1; subst h2
                        refine ⟨?_, href, hwjf2⟩
                        intro sc nm
                        obtain ⟨l', hch', hget'⟩ := ch_of_chl_get hcomp
                        have hcompnj : noJumps comp = true :=
                          noJumpsList_get l' fieldidx comp
                            (noJumps_children hch' hnjX) hget'
                        rw [jumpsIn_withSef, jumpsIn_Cast,
                          jumpsIn_eq_zero sc nm comp hcompnj]
                        exact Nat.zero_le _
    · rw [if_neg hf] at h
      by_cases hi : (node.nt == "IDENT") = true
      · rw [if_pos hi] at h
        cases hok : OKtoRemoveSymbol shrinknames symtab node with
        | none =>
          rw [hok] at h
          dsimp only at h
          injection h with h1 h2
          subst h1; subst h2
          exact ⟨fun _ _ => le_refl _, fun _ _ => rfl, hW⟩
        | some sym =>
          rw [hok] at h
          dsimp only at h
          obtain ⟨scl, hscl, hlook⟩ := OKtoRemove_lookup hok
          cases hw : sym.w with
          | none =>
            rw [hw] at h
            dsimp only at h
            exact CleanStep.noConfusion h
          | some ow =>
            cases ow with
            | none =>
              rw [hw] at h
              dsimp only at h
              exact CleanStep.noConfusion h
            | some w =>
              rw [hw] at h
              dsimp only at h
              have hnjw : noJumps w = true := wjf_lookup hW hlook hw
              cases ht : node.t with
              | some t0 =>
                rw [ht] at h
                dsimp only at h
                injection h with h1 h2
                subst h1; subst h2
                refine ⟨?_, fun _ _ => rfl, hW⟩
                intro sc nm
                rw [jumpsIn_Cast, jumpsIn_setX, jumpsIn_dropOrig,
                  jumpsIn_eq_zero sc nm w hnjw]
                exact Nat.zero_le _
              | none =>
                rw [ht] at h
                dsimp only at h
                by_cases htn :
                    (((w.dropOrig.setX (some (some true))).t.isNone) = true)
                · rw [if_pos htn] at h
                  injection h with h1 h2
                  subst h1; subst h2
                  refine ⟨?_, fun _ _ => rfl, hW⟩
                  intro sc nm
                  rw [jumpsIn_setX, jumpsIn_dropOrig,
                    jumpsIn_eq_zero sc nm w hnjw]
                  exact Nat.zero_le _
                · rw [if_neg htn] at h
                  exact CleanStep.noConfusion h
      · rw [if_neg hi] at h
        by_cases ha : (assignOps.contains node.nt) = true
        · rw [if_pos ha] at h
          cases hc0 : node.chl.get? 0 with
          | none => rw [hc0] at h; exact CleanStep.noConfusion h
          | some id0 =>
            rw [hc0] at h
            dsimp only at h
            cases hid :
                (if id0.nt == "FLD" then id0.chl.get? 0 else some id0) with
            | none =>
              rw [hid] at h
              dsimp only at h
              exact CleanStep.noConfusion h
            | some ident =>
              rw [hid] at h
              dsimp only at h
              cases hok : OKtoRemoveSymbol shrinknames symtab ident with
              | none =>
                rw [hok] at h
                dsimp only at h
                injection h with h1 h2
                subst h1; subst h2
                exact ⟨fun _ _ => le_refl _, fun _ _ => rfl, hW⟩
              | some s =>
                rw [hok] at h
                dsimp only at h
                cases hc1 : node.chl.get? 1 with
                | none =>
                  rw [hc1] at h
                  cases ht : node.t with
                  | none => rw [ht] at h; dsimp only at h
                            exact CleanStep.noConfusion h
                  | some t0 => rw [ht] at h; dsimp only at h
                               exact CleanStep.noConfusion h
                | some rhs =>
                  rw [hc1] at h
                  cases ht : node.t with
                  | none =>
                    rw [ht] at h
                    dsimp only at h
                    exact CleanStep.noConfusion h
                  | some t0 =>
                    rw [ht] at h
                    dsimp only at h
                    injection h with h1 h2
                    subst h1; subst h2
                    refine ⟨?_, fun _ _ => rfl, hW⟩
                    intro sc nm
                    obtain ⟨l, hch, hget⟩ := ch_of_chl_get hc1
                    rw [jumpsIn_Cast, jumpsIn_ch_some sc nm hch]
                    exact le_trans (jumpsInList_get_le sc nm l 1 rhs hget)
                      (Nat.le_add_left _ _)
        · rw [if_neg ha] at h
          by_cases hl4 : ((node.nt == "IF" || node.nt == "WHILE"
              || node.nt == "DO" || node.nt == "FOR") = true)
          · rw [if_pos hl4] at h
            dsimp only at h
            generalize hidx : (if node.nt == "FOR" then (3:Nat)
              else if node.nt == "DO" then 0 else 1) = idx at h
            cases hm : node.chl.get? idx with
            | none => rw [hm] at h; exact CleanStep.noConfusion h
            | some mand =>
              rw [hm] at h
              dsimp only at h
              obtain ⟨l, hch, hgetm⟩ := ch_of_chl_get hm
              have hchl : node.chl = l := chl_eq_of_ch hch
              rw [hchl] at h
              by_cases hmx : (mand.x.isNone = true)
              · rw [if_pos hmx] at h
                by_cases hdo : ((node.nt == "DO") = true)
                · rw [if_pos hdo] at h
                  cases hc1g : (l.set idx semiNode).get? 1 with
                  | none => rw [hc1g] at h; exact CleanStep.noConfusion h
                  | some c1 =>
                    rw [hc1g] at h
                    dsimp only at h
                    by_cases hc1x : (c1.x.isNone = true)
                    · rw [if_pos hc1x] at h
                      injection h with h1 h2
                      subst h1; subst h2
                      refine ⟨?_, fun _ _ => rfl, hW⟩
                      intro sc nm
                      rw [jumpsIn_withCh, jumpsIn_ch_some sc nm hch]
                      refine Nat.add_le_add_left ?_ _
                      exact le_trans
                        (jumpsInList_set_le sc nm zeroNode
                          (jumpsIn_zeroNode sc nm) (l.set idx semiNode) 1)
                        (jumpsInList_set_le sc nm semiNode
                          (jumpsIn_semiNode sc nm) l idx)
                    · rw [if_neg hc1x] at h
                      injection h with h1 h2
                      subst h1; subst h2
                      refine ⟨?_, fun _ _ => rfl, hW⟩
                      intro sc nm
                      rw [jumpsIn_withCh, jumpsIn_ch_some sc nm hch]
                      refine Nat.add_le_add_left ?_ _
                      exact jumpsInList_set_le sc nm semiNode
                        (jumpsIn_semiNode sc nm) l idx
                · rw [if_neg hdo] at h
                  injection h with h1 h2
                  subst h1; subst h2
                  refine ⟨?_, fun _ _ => rfl, hW⟩
                  intro sc nm
                  rw [jumpsIn_withCh, jumpsIn_ch_some sc nm hch]
                  refine Nat.add_le_add_left ?_ _
                  exact jumpsInList_set_le sc nm semiNode
                    (jumpsIn_semiNode sc nm) l idx
              · rw [if_neg hmx] at h
                by_cases hdo : ((node.nt == "DO") = true)
                · rw [if_pos hdo] at h
                  cases hc1g : l.get? 1 with
                  | none => rw [hc1g] at h; exact CleanStep.noConfusion h
                  | some c1 =>
                    rw [hc1g] at h
                    dsimp only at h
                    by_cases hc1x : (c1.x.isNone = true)
                    · rw [if_pos hc1x] at h
                      injection h with h1 h2
                      subst h1; subst h2
                      refine ⟨?_, fun _ _ => rfl, hW⟩
                      intro sc nm
                      rw [jumpsIn_withCh, jumpsIn_ch_some sc nm hch]
                      refine Nat.add_le_add_left ?_ _
                      exact jumpsInList_set_le sc nm zeroNode
                        (jumpsIn_zeroNode sc nm) l 1
                    · rw [if_neg hc1x] at h
                      injection h with h1 h2
                      subst h1; subst h2
                      exact ⟨fun sc nm => by
                        rw [jumpsIn_withCh, jumpsIn_ch_some sc nm hch],
                        fun _ _ => rfl, hW⟩
                · rw [if_neg hdo] at h
                  injection h with h1 h2
                  subst h1; subst h2
                  exact ⟨fun sc nm => by
                    rw [jumpsIn_withCh, jumpsIn_ch_some sc nm hch],
                    fun _ _ => rfl, hW⟩
          · rw [if_neg hl4] at h
            injection h with h1 h2
            subst h1; subst h2
            exact ⟨fun _ _ => le_refl _, fun _ _ => rfl, hW⟩

mutual

theorem cleanNode_count (fuel : Nat) (shrinknames : Bool) (symtab : Symtab)
    (curnode : Node) (isFnDef : Bool) (res : Node × Symtab)
    (h : cleanNode fuel shrinknames symtab curnode isFnDef = some res)
    (hW : WJumpFreeB symtab = true) (sc : Nat) (nm : String) :
    ((jumpsIn sc nm res.1 : Int) - jumpsIn sc nm curnode ≤
      refOf res.2 sc nm - refOf symtab sc nm) ∧
    WJumpFreeB res.2 = true := by
  cases fuel with
  | zero =>
    rw [cleanNode.eq_def] at h
    dsimp only at h
    exact Option.noConfusion h
  | succ fuel =>
    rw [cleanNode.eq_def] at h
    dsimp only at h
    cases hch : curnode.ch with
    | none =>
      rw [hch] at h
      dsimp only at h
      injection h with h
      subst h
      exact ⟨by dsimp only; omega, hW⟩
    | some chList =>
      rw [hch] at h
      dsimp only at h
      by_cases hds : ((curnode.nt == "DECL" && curnode.scope == some 0)
          = true)
      · rw [if_pos hds] at h
        injection h with h
        subst h
        exact ⟨by dsimp only; omega, hW⟩
      · rw [if_neg hds] at h
        by_cases has : (assignOps.contains curnode.nt = true)
        · rw [if_pos has] at h
          cases chList with
          | nil =>
            dsimp only at h
            injection h with h
            subst h
            exact ⟨by dsimp only; omega, hW⟩
          | cons c0 rest =>
            dsimp only [bind, Monad.toBind, instMonadOption, Option.bind,
              pure, Applicative.toPure, Alternative.toApplicative,
              instAlternativeOption] at h
            cases hcc : cleanChildren fuel shrinknames symtab curnode.nt
                isFnDef rest with
            | none =>
              rw [hcc] at h
              exact Option.noConfusion h
            | some pr =>
              rw [hcc] at h
              obtain ⟨rest', symtab'⟩ := pr
              dsimp only at h
              have IH := cleanChildren_count fuel shrinknames symtab
                curnode.nt isFnDef rest (rest', symtab') hcc hW sc nm
              injection h with h
              subst h
              dsimp only at IH ⊢
              refine ⟨?_, IH.2⟩
              rw [jumpsIn_withCh, jumpsIn_ch_some sc nm hch,
                jumpsInList, jumpsInList]
              have := IH.1
              omega
        · rw [if_neg has] at h
          dsimp only [bind, Monad.toBind, instMonadOption, Option.bind,
            pure, Applicative.toPure, Alternative.toApplicative,
            instAlternativeOption] at h
          cases hcc : cleanChildren fuel shrinknames symtab curnode.nt
              isFnDef chList with
          | none =>
            rw [hcc] at h
            exact Option.noConfusion h
          | some pr =>
            rw [hcc] at h
            obtain ⟨ch', symtab'⟩ := pr
            dsimp only at h
            have IH := cleanChildren_count fuel shrinknames symtab
              curnode.nt isFnDef chList (ch', symtab') hcc hW sc nm
            injection h with h
            subst h
            dsimp only at IH ⊢
            refine ⟨?_, IH.2⟩
            rw [jumpsIn_withCh, jumpsIn_ch_some sc nm hch]
            have := IH.1
            omega
termination_by (fuel, 0, 0)

theorem cleanChildren_count (fuel : Nat) (shrinknames : Bool)
    (symtab : Symtab) (parentNT : String) (isFnDef : Bool) (l : List Node)
    (res : List Node × Symtab)
    (h : cleanChildren fuel shrinknames symtab parentNT isFnDef l
        = some res)
    (hW : WJumpFreeB symtab = true) (sc : Nat) (nm : String) :
    ((jumpsInList sc nm res.1 : Int) - jumpsInList sc nm l ≤
      refOf res.2 sc nm - refOf symtab sc nm) ∧
    WJumpFreeB res.2 = true := by
  cases l with
  | nil =>
    rw [cleanChildren] at h
    injection h with h
    subst h
    exact ⟨by dsimp only; omega, hW⟩
  | cons node rest =>
    rw [cleanChildren] at h
    by_cases hdel : ((node.x.isNone && !(parentNT == "RETURN") &&
        !(node.nt == "RETURN" && rest.isEmpty && isFnDef)) = true)
    · rw [if_pos hdel] at h
      by_cases hj : ((node.nt == "JUMP") = true)
      · rw [if_pos hj] at h
        dsimp only [bind, Monad.toBind, instMonadOption, Option.bind,
          pure, Applicative.toPure, Alternative.toApplicative,
          instAlternativeOption] at h
        cases hsc0 : node.scope with
        | none =>
          rw [hsc0] at h
          dsimp only [Option.bind] at h
          exact Option.noConfusion h
        | some sc0 =>
          rw [hsc0] at h
          dsimp only [Option.bind] at h
          cases hlk : lookupSym symtab sc0 node.name with
          | none =>
            rw [hlk] at h
            dsimp only [Option.bind] at h
            exact Option.noConfusion h
          | some sym =>
            rw [hlk] at h
            dsimp only [Option.bind] at h
            by_cases hpos : (decide (0 < sym.ref) = true)
            · rw [if_pos hpos] at h
              cases hup : updSym symtab sc0 node.name
                  (fun s => { s with ref := s.ref - 1 }) with
              | none =>
                rw [hup] at h
                dsimp only [Option.bind] at h
                exact Option.noConfusion h
              | some symtab2 =>
                rw [hup] at h
                dsimp only [Option.bind] at h
                have hW2 : WJumpFreeB symtab2 = true :=
                  wjf_updSym hup hW (fun s hs w hw => hs w hw)
                have IH := cleanChildren_count fuel shrinknames symtab2
                  parentNT isFnDef rest res h hW2 sc nm
                have hdec := refOf_updSym_dec hup sc nm
                refine ⟨?_, IH.2⟩
                rw [jumpsInList]
                by_cases htar : (sc = sc0 ∧ nm = node.name ∧
                    (lookupSym symtab sc0 node.name).isSome)
                · rw [if_pos htar] at hdec
                  have hone : 1 ≤ jumpsIn sc nm node :=
                    jumpsIn_jump_self sc nm node hj htar.2.1.symm
                      (by rw [hsc0, htar.1])
                  have := IH.1
                  omega
                · rw [if_neg htar] at hdec
                  have := IH.1
                  omega
            · rw [if_neg hpos] at h
              exact Option.noConfusion h
      · rw [if_neg hj] at h
        dsimp only [bind, Monad.toBind, instMonadOption, Option.bind,
          pure, Applicative.toPure, Alternative.toApplicative,
          instAlternativeOption] at h
        have IH := cleanChildren_count fuel shrinknames symtab parentNT
          isFnDef rest res h hW sc nm
        refine ⟨?_, IH.2⟩
        rw [jumpsInList]
        have := IH.1
        omega
    · rw [if_neg hdel] at h
      cases hts : transformStep shrinknames symtab node with
      | deleted =>
        rw [hts] at h
        dsimp only at h
        have IH := cleanChildren_count fuel shrinknames symtab parentNT
          isFnDef rest res h hW sc nm
        refine ⟨?_, IH.2⟩
        rw [jumpsInList]
        have := IH.1
        omega
      | err =>
        rw [hts] at h
        dsimp only at h
        exact Option.noConfusion h
      | keep node1 symtab1 =>
        rw [hts] at h
        dsimp only [bind, Monad.toBind, instMonadOption, Option.bind,
          pure, Applicative.toPure, Alternative.toApplicative,
          instAlternativeOption] at h
        have hT := transformStep_count hts hW
        cases hcn : cleanNode fuel shrinknames symtab1 node1
            (parentNT == "FNDEF") with
        | none =>
          rw [hcn] at h
          exact Option.noConfusion h
        | some pr =>
          rw [hcn] at h
          obtain ⟨node2, symtabB⟩ := pr
          dsimp only [Option.bind] at h
          have IH1 := cleanNode_count fuel shrinknames symtab1 node1
            (parentNT == "FNDEF") (node2, symtabB) hcn hT.2.2 sc nm
          cases hcc : cleanChildren fuel shrinknames symtabB parentNT
              isFnDef rest with
          | none =>
            rw [hcc] at h
            exact Option.noConfusion h
          | some pr2 =>
            rw [hcc] at h
            obtain ⟨rest', symtabC⟩ := pr2
            dsimp only [Option.bind] at h
            have IH2 := cleanChildren_count fuel shrinknames symtabB
              parentNT isFnDef rest (rest', symtabC) hcc IH1.2 sc nm
            injection h with h
            subst h
            dsimp only at IH1 IH2 ⊢
            refine ⟨?_, IH2.2⟩
            rw [jumpsInList, jumpsInList]
            have l1 := hT.1 sc nm
            have l2 := hT.2.1 sc nm
            have j1 := IH1.1
            have j2 := IH2.1
            omega
termination_by (fuel, 1, l.length)

end

theorem dcrLoop_count (fuel : Nat) (shrinknames : Bool) (sc : Nat)
    (nm : String) :
    ∀ (entries : List (Node × Nat)) (symtab : Symtab)
      (res : List (Node × Nat) × List String × Symtab),
      dcrLoop fuel shrinknames symtab entries = some res →
      WJumpFreeB symtab = true →
      ((jumpsInList sc nm (res.1.map Prod.fst) : Int) -
        jumpsInList sc nm (entries.map Prod.fst) ≤
        refOf res.2.2 sc nm - refOf symtab sc nm) ∧
      WJumpFreeB res.2.2 = true := by
  intro entries
  induction entries with
  | nil =>
    intro symtab res h hW
    rw [dcrLoop] at h
    injection h with h
    subst h
    exact ⟨by dsimp only; omega, hW⟩
  | cons e rest ih =>
    intro symtab res h hW
    obtain ⟨node, i⟩ := e
    rw [dcrLoop] at h
    dsimp only [bind, Monad.toBind, instMonadOption, Option.bind,
      pure, Applicative.toPure, Alternative.toApplicative,
      instAlternativeOption] at h
    generalize hdelg : (if node.x.isNone then true
        else if node.nt == "DECL" then
          (OKtoRemoveSymbol shrinknames symtab node).isSome
        else false) = del at h
    cases del with
    | true =>
      rw [if_pos rfl] at h
      cases hdc : dcrLoop fuel shrinknames symtab rest with
      | none =>
        rw [hdc] at h
        exact Option.noConfusion h
      | some trip =>
        rw [hdc] at h
        obtain ⟨rest', gds, symtab'⟩ := trip
        dsimp only at h
        have IH := ih symtab (rest', gds, symtab') hdc hW
        injection h with h
        subst h
        dsimp only at IH ⊢
        refine ⟨?_, IH.2⟩
        rw [List.map_cons, jumpsInList]
        have := IH.1
        omega
    | false =>
      rw [if_neg (by simp)] at h
      cases hcn : cleanNode fuel shrinknames symtab node false with
      | none =>
        rw [hcn] at h
        exact Option.noConfusion h
      | some pr =>
        rw [hcn] at h
        obtain ⟨node', symtabB⟩ := pr
        dsimp only [Option.bind] at h
        have CN := cleanNode_count fuel shrinknames symtab node false
          (node', symtabB) hcn hW sc nm
        cases hdc : dcrLoop fuel shrinknames symtabB rest with
        | none =>
          rw [hdc] at h
          exact Option.noConfusion h
        | some trip =>
          rw [hdc] at h
          obtain ⟨rest', gds, symtabC⟩ := trip
          dsimp only [Option.bind] at h
          have IH := ih symtabB (rest', gds, symtabC) hdc CN.2
          injection h with h
          subst h
          dsimp only at CN IH ⊢
          refine ⟨?_, IH.2⟩
          rw [List.map_cons, List.map_cons, jumpsInList, jumpsInList]
          dsimp only
          have c1 := CN.1
          have i1 := IH.1
          omega

theorem foldl_scopeUpd (f : Sym → Sym) :
    ∀ (order : List String) (sc : Scope),
      order.foldl (fun s nmv => scopeUpd s nmv f) sc =
        sc.map (fun p => (p.1, f^[order.count p.1] p.2)) := by
  intro order
  induction order with
  | nil =>
    intro sc
    simp
  | cons nm rest ih =>
    intro sc
    rw [List.foldl_cons, ih]
    unfold scopeUpd
    rw [List.map_map]
    refine List.map_congr_left ?_
    intro p hp
    simp only [Function.comp]
    by_cases hb : (p.1 == nm) = true
    · rw [if_pos hb]
      have he : nm = p.1 := (beq_iff_eq.mp hb).symm
      simp [List.count_cons, he, Function.iterate_succ_apply]
    · rw [if_neg hb]
      have he : ¬(nm = p.1) := fun h => hb (beq_iff_eq.mpr h.symm)
      simp [List.count_cons, he]

theorem foldl_scopeUpd_perm (f : Sym → Sym) (order : List String)
    (sc : Scope) (hperm : order.Perm (sc.map Prod.fst))
    (hnd : (sc.map Prod.fst).Nodup) :
    order.foldl (fun s nmv => scopeUpd s nmv f) sc =
      sc.map (fun p => (p.1, f p.2)) := by
  rw [foldl_scopeUpd]
  refine List.map_congr_left ?_
  intro p hp
  have hc : order.count p.1 = 1 := by
    rw [hperm.count_eq]
    exact List.count_eq_one_of_mem hnd (List.mem_map_of_mem Prod.fst hp)
  rw [hc, Function.iterate_one]

theorem RemoveDeadCodeOrd_eq (fuel : Nat) (shrinknames : Bool)
    (order : List String) (st : St)
    (hkeys : ∀ sc0, postDelScope0 fuel shrinknames st = some sc0 →
      order.Perm (sc0.map Prod.fst) ∧ (sc0.map Prod.fst).Nodup) :
    RemoveDeadCodeOrd fuel shrinknames order st
      = RemoveDeadCode fuel shrinknames st := by
  unfold RemoveDeadCodeOrd RemoveDeadCode
  unfold postDelScope0 at hkeys
  dsimp only [bind, Monad.toBind, instMonadOption, Option.bind,
    pure, Applicative.toPure, Alternative.toApplicative,
    instAlternativeOption] at hkeys ⊢
  cases h1 : lookupSym st.symtab 0 "default" with
  | none => rfl
  | some dsym =>
    rw [h1] at hkeys
    dsimp only at hkeys ⊢
    cases h2 : dsym.loc with
    | none => rfl
    | some loc =>
      rw [h2] at hkeys
      dsimp only at hkeys ⊢
      cases h3 : (st.tree.get? loc : Option Node) with
      | none => rfl
      | some statedef =>
        rw [h3] at hkeys
        dsimp only at hkeys ⊢
        by_cases hguard : ((statedef.nt == "STDEF"
            && statedef.name == "default") = true)
        · rw [if_pos hguard] at hkeys
          rw [if_pos hguard, if_pos hguard]
          cases hm : markRef fuel st ⟨loc, []⟩ with
          | none => rfl
          | some pr =>
            rw [hm] at hkeys
            obtain ⟨xv, stm⟩ := pr
            dsimp only at hkeys ⊢
            cases hdc : dcrLoop fuel shrinknames stm.symtab
                (stm.tree.zip (List.range stm.tree.length)) with
            | none => rfl
            | some trip =>
              rw [hdc] at hkeys
              obtain ⟨entries, gdels, symtab'⟩ := trip
              dsimp only at hkeys ⊢
              cases symtab' with
              | nil => rfl
              | cons s0 rests =>
                dsimp only at hkeys ⊢
                have hpn := hkeys
                  (s0.filter (fun p => !(gdels.contains p.1))) rfl
                rw [foldl_scopeUpd_perm (locAssign
                    (entries.map (fun e => e.2)))
                  order (s0.filter (fun p => !(gdels.contains p.1)))
                  hpn.1 hpn.2]
                refine congrArg (fun z =>
                  (some { tree := entries.map (fun e => e.1),
                          symtab := z :: rests } : Option St)) ?_
                refine List.map_congr_left ?_
                intro p _
                obtain ⟨nm, sym⟩ := p
                dsimp only
                unfold locAssign
                cases hx : sym.loc with
                | none => rfl
                | some l =>
                  dsimp only
                  cases hy : ((entries.map (fun e => e.2)).indexOf? l
                      : Option Nat) with
                  | none => rfl
                  | some j => rfl
        · rw [if_neg hguard, if_neg hguard]

theorem PipelineRun_eq_canonical (condKey : String → Bool) (fuel : Nat)
    (opts : Options) (toks : List Tok) (order : List String)
    (hkeys : ∀ ks, PipelineDicKeys condKey fuel opts toks = some ks →
      order.Perm ks ∧ ks.Nodup) :
    PipelineRun condKey fuel opts order toks
      = PipelineRunC condKey fuel opts toks := by
  unfold PipelineRun PipelineRunC
  unfold PipelineDicKeys at hkeys
  dsimp only [bind, Monad.toBind, instMonadOption, Option.bind,
    pure, Applicative.toPure, Alternative.toApplicative,
    instAlternativeOption] at hkeys ⊢
  cases hp : (Parse_script_sub fuel opts toks).toOption with
  | none => rfl
  | some st0 =>
    dsimp only at hkeys ⊢
    rw [RemoveDeadCodeOrd_eq fuel opts.shrinknames order
      (FoldScript condKey fuel st0)
      (fun sc0 hsc0 => hkeys (sc0.map Prod.fst)
        (by rw [hp]; dsimp only; rw [hsc0]))]

theorem castDL2S_isSome (L : Node) (hlen : GetListNodeLength L = some 1) :
    ∃ e, CastDL2S L 0 = some e := by
  have helem : ∃ el, GetListNodeElement L 0 = some el := by
    unfold GetListNodeLength at hlen
    unfold GetListNodeElement
    by_cases hL : (L.nt == "LIST") = true
    · simp only [hL, if_true] at hlen ⊢
      have hl : L.chl.length = 1 := by simpa using hlen
      cases hc : L.chl with
      | nil => rw [hc] at hl; simp at hl
      | cons a t => simp [hc]
    · simp only [hL, if_false, Bool.false_eq_true] at hlen ⊢
      by_cases hC : (L.nt == "CONST" && L.t == some "list") = true
      · simp only [hC, if_true] at hlen ⊢
        cases hv : L.value with
        | int i => rw [hv] at hlen; simp at hlen
        | flt q => rw [hv] at hlen; simp at hlen
        | str s => rw [hv] at hlen; simp at hlen
        | key s => rw [hv] at hlen; simp at hlen
        | vec x y z => rw [hv] at hlen; simp at hlen
        | rot x y z s => rw [hv] at hlen; simp at hlen
        | lst l =>
          rw [hv] at hlen
          cases l with
          | nil => simp at hlen
          | cons v t => simp
      · simp [hC] at hlen
  obtain ⟨el, hel⟩ := helem
  unfold CastDL2S
  rw [hel]
  rcases el with n | v <;> (dsimp only; split <;> exact ⟨_, rfl⟩)

/-! ## Claim theorems -/

/-- C8: lexing a hexadecimal literal `0x…` yields the literal's value
wrapped to a signed 32-bit integer (`S32`), except that a literal with
more than 8 significant hex digits yields `-1`. -/
theorem C8_hex_literal_token (ds : List Char) :
    lexHexToken ds =
      if 8 < (ds.dropWhile (fun c => c == '0')).length then -1
      else S32 (hexValue ds) := by
  unfold lexHexToken
  dsimp only
  rw [hexAccum_eq _ [] (by simp)]
  simp only [List.nil_append, List.length_nil, Nat.sub_zero]
  by_cases h : 8 < (ds.dropWhile (fun c => c == '0')).length
  · have hlen : ((ds.dropWhile (fun c => c == '0')).take 9).length = 9 := by
      rw [List.length_take]; omega
    have hne : ((ds.dropWhile (fun c => c == '0')).take 9).isEmpty = false := by
      cases h9 : (ds.dropWhile (fun c => c == '0')).take 9 with
      | nil => rw [h9] at hlen; simp at hlen
      | cons a t => simp [List.isEmpty]
    rw [if_pos h]
    simp [hne, hlen]
  · rw [if_neg h]
    have htake : (ds.dropWhile (fun c => c == '0')).take 9 =
        ds.dropWhile (fun c => c == '0') :=
      List.take_of_length_le (by omega)
    rw [htake]
    by_cases he : (ds.dropWhile (fun c => c == '0')).isEmpty
    · have hnil : ds.dropWhile (fun c => c == '0') = [] := by
        simpa [List.isEmpty_iff] using he
      rw [← hexValue_dropZeros ds, hnil]
      simp [he, hnil, hexValue, hexDigitVal]
    · simp only [he, Bool.false_eq_true, if_neg, if_false]
      have : ¬ 8 < (ds.dropWhile (fun c => c == '0')).length := h
      rw [if_neg (by simpa using this), ← hexValue_dropZeros ds]

/-- C10: `OptimizeArgs` is a no-op on calls to user-defined functions
(symbols carrying `Loc`): the node, all argument children included, is
returned unchanged. -/
theorem C10_optimizeargs_udf_noop (condKey : String → Bool) (sym : Sym)
    (node : Node) (h : sym.loc.isSome) :
    OptimizeArgs condKey sym node = node := by
  unfold OptimizeArgs
  rw [if_pos h]

theorem C10_witness :
    symUdfC10.loc.isSome ∧
    OptimizeArgs (fun _ => false) symUdfC10 udfCallC10 = udfCallC10 :=
  ⟨rfl, C10_optimizeargs_udf_noop (fun _ => false) symUdfC10 udfCallC10 rfl⟩

/-- C4 counterexample: the constant arc `3.141592` satisfies
`3.141592 ≤ π`, yet `OptimizeArgs` rewrites it to `4.0` (its cutoff is the
literal `3.14159`, which is strictly below `π`), and `4.0` is a change.
This refutes "leaves the argument unchanged when the value is less than or
equal to π". -/
theorem C4_counterexample :
    ((OptimizeArgs (fun _ => false) symSensor
        (sensorCall (3141592 / 1000000))).chl.get? 4).map Node.value =
      some (.flt 4) ∧
    ((3141592 / 1000000 : ℚ) : ℝ) ≤ Real.pi ∧
    (3141592 / 1000000 : ℚ) ≠ 4 := by
  refine ⟨by with_unfolding_all rfl, ?_, by norm_num⟩
  have h := Real.pi_gt_d6
  have heq : ((3141592 / 1000000 : ℚ) : ℝ) = 3.141592 := by norm_num
  rw [heq]
  exact le_of_lt h

/-- C4 amended: for a `llSensor`/`llSensorRepeat` call whose fifth
argument is a float constant `arc`, `OptimizeArgs` replaces the value with
`4.0` exactly when `arc` exceeds the source literal `3.14159` (not `π`),
and leaves it unchanged otherwise. -/
theorem C4_sensor_arc_cutoff (condKey : String → Bool) (arc : Rat) :
    ((OptimizeArgs condKey symSensor (sensorCall arc)).chl.get? 4).map
        Node.value =
      some (.flt (if sensorCutoff < arc then 4 else arc)) := by
  by_cases h : sensorCutoff < arc
  · simp [OptimizeArgs, sensorCall, symSensor, valGtCutoff, keyArgStep,
      SensorFunctions, NoKeyOptimizationFunctions, NULL_KEY,
      Node.chl, Node.name, Node.a, Node.nt, Node.t, Node.value, h,
      List.range_succ, List.set, List.get?, Node.withA, Node.withCh,
      Node.ch, Option.getD]
  · simp [OptimizeArgs, sensorCall, symSensor, valGtCutoff, keyArgStep,
      SensorFunctions, NoKeyOptimizationFunctions, NULL_KEY,
      Node.chl, Node.name, Node.a, Node.nt, Node.t, Node.value, h,
      List.range_succ, List.set, List.get?, Node.withA, Node.withCh,
      Node.ch, Option.getD]

/-- C2 counterexample: local `v` has a single side-effect-free non-constant
writer (`i + 1`), is read exactly once, is not field-referenced, and
`shrinknames` is on — every condition of the claim — yet
`OKtoRemoveSymbol` does not deem it inlinable. -/
theorem C2_counterexample :
    OKtoRemoveSymbol true symtabC2 identC2 = none ∧
    (lookupSym symtabC2 1 "v").map Sym.r = some (some 1) ∧
    ((lookupSym symtabC2 1 "v").map (fun s =>
      (s.w.bind id).map (fun w => (w.nt, w.sef)))) =
      some (some ("+", true)) ∧
    (lookupSym symtabC2 1 "v").map Sym.fldUsed = some false :=
  ⟨rfl, rfl, rfl, rfl⟩

/-- C2 amended: for every variable whose single writer is a non-constant
expression (and that has been read), `OKtoRemoveSymbol` returns `False` —
the SEF-and-`shrinknames` inlining branch is disabled by the
`if True or …` kill switch pending a CFG, so no such variable is ever
deemed inlinable, regardless of SEF, `shrinknames`, read count or field
references. -/
theorem C2_nonconst_writer_never_inlined (shrinknames : Bool)
    (symtab : Symtab) (curnode : Node) (sc : Nat) (sym : Sym) (w : Node)
    (hsc : curnode.scope = some sc)
    (hsym : lookupSym symtab sc curnode.name = some sym)
    (hr : sym.r.isSome)
    (hw : sym.w = some (some w))
    (hnc : (w.nt == "CONST") = false) :
    OKtoRemoveSymbol shrinknames symtab curnode = none := by
  have hrn : sym.r.isNone = false := by
    cases hx : sym.r with
    | none => rw [hx] at hr; simp at hr
    | some v => rfl
  unfold OKtoRemoveSymbol
  rw [hsc]
  dsimp only
  rw [hsym]
  dsimp only
  rw [hrn]
  simp only [Bool.false_eq_true, if_false]
  rw [hw]
  dsimp only
  rw [hnc]
  simp

theorem C2_amended_witness :
    OKtoRemoveSymbol true symtabC2 identC2 = none :=
  C2_nonconst_writer_never_inlined true symtabC2 identC2 1 _ _
    rfl rfl rfl rfl rfl

/-- C6: parsing the body of `integer f(){ return 1; state other; }` — a
state change on a path that also contains a `return`, directly in a
user-defined function body (`localevents = None`, `AllowStSw = False`) —
raises `EParseCantChangeState` before any AST for the function is built,
whatever states are known. -/
theorem C6_state_in_udf_rejected (states : List String) :
    Parse_code_block 10 (some "integer") (some false) none states
      { toks := bodyToksC6, pruneBug := [] } =
      .error .cantChangeState := rfl

/-- C7: a node whose `X` is already set to a non-`None` value is not
re-analyzed: `MarkReferences` returns the stored value and leaves the
whole state — tree and symbol table, hence every `R`/`W`/`ref` counter —
unchanged. -/
theorem C7_marked_node_revisit_inert (fuel : Nat) (st : St) (a : Addr)
    (n : Node) (b : Bool) (hn : getNodeAt st a = some n)
    (hx : n.x = some (some b)) :
    markRef (fuel + 1) st a = some (some b, st) := by
  unfold markRef
  rw [hn]
  simp only [Option.bind_eq_bind, Option.some_bind, hx]
  rfl

theorem C7_witness : markRef 1 stC7 ⟨0, []⟩ = some (some true, stC7) :=
  C7_marked_node_revisit_inert 0 stC7 ⟨0, []⟩ fndefC3 true rfl rfl

/-- C5 counterexample: `llDumpList2String([1], sep)` with a determinable
list length of 1 but a separator that is not side-effect-free is left
completely unchanged — not rewritten to a cast of the single element —
refuting "for every separator expression sep". -/
theorem C5_counterexample :
    OptimizeFuncDumpList2String dumpCallC5 = dumpCallC5 ∧
    dumpCallC5.nt = "FNCALL" ∧
    (dumpCallC5.chl.get? 0).map GetListNodeLength = some (some 1) ∧
    (dumpCallC5.chl.get? 1).map Node.sef = some false :=
  ⟨by with_unfolding_all rfl, rfl, by with_unfolding_all rfl, rfl⟩

/-- C5 amended: a call `llDumpList2String(L, sep)` with determinable list
length 1 collapses as follows: a constant empty string/key separator
triggers the general `(string)L` cast of the whole list argument; any
other side-effect-free separator yields the cast of the single element
(`CastDL2S`); a separator with side effects (the call is then not SEF
either) blocks the rewrite entirely. -/
theorem C5_single_element_rewrite (a : NAttrs) (L sep : Node)
    (hlen : GetListNodeLength L = some 1) :
    (emptyConstSep sep = true →
      OptimizeFuncDumpList2String (.mk a (some [L, sep]) none) =
        .mk { a with nt := "CAST", name := "" } (some [L]) none) ∧
    (emptyConstSep sep = false → sep.sef = true →
      ∃ e, CastDL2S L 0 = some e ∧
        OptimizeFuncDumpList2String (.mk a (some [L, sep]) none) = e) ∧
    (emptyConstSep sep = false → sep.sef = false → a.sef = false →
      OptimizeFuncDumpList2String (.mk a (some [L, sep]) none) =
        .mk a (some [L, sep]) none) := by
  refine ⟨?_, ?_, ?_⟩
  · intro h
    simp [OptimizeFuncDumpList2String, Node.chl, Node.ch, h,
      Node.withA, Node.withCh, Node.a]
  · intro h hsef
    obtain ⟨e, he⟩ := castDL2S_isSome L hlen
    refine ⟨e, he, ?_⟩
    simp [OptimizeFuncDumpList2String, Node.chl, Node.ch, h, hlen, hsef,
      he, Node.withA, Node.withCh, Node.a]
  · intro h hsef hnode
    simp only [Node.sef, Node.a] at hsef
    simp [OptimizeFuncDumpList2String, Node.chl, Node.ch, Node.sef,
      Node.a, h, hlen, hsef, hnode]

theorem addLib_pres (g : LPG) (nm : String) :
    (g.addLib nm).symtab = g.symtab ∧ (g.addLib nm).badStCh = g.badStCh
    := by
  unfold LPG.addLib
  split <;> exact ⟨rfl, rfl⟩

theorem preorder_noFNDEF (stch : Bool) (g : LPG) (a : NAttrs)
    (ch : Option (List Node)) (orig : Option Node)
    (hfn : (a.nt == "FNDEF") = false) :
    (LastPassPreOrder stch g (.mk a ch orig)).2.symtab = g.symtab ∧
    (LastPassPreOrder stch g (.mk a ch orig)).2.badStCh =
      (g.badStCh || (a.nt == "STSW" && stch)) ∧
    (LastPassPreOrder stch g (.mk a ch orig)).1 =
      (if a.nt == "IF" then
        (if (ch.getD []).length == 2 then false else stch)
      else if a.nt == "DO" || a.nt == "FOR" || a.nt == "WHILE" then false
      else stch) := by
  have hbody : LastPassPreOrder stch g (.mk a ch orig) =
      (if a.nt == "IF" then
        ((if (ch.getD []).length == 2 then false else stch), g)
       else if a.nt == "DO" || a.nt == "FOR" || a.nt == "WHILE" then
         (false, g)
       else if a.nt == "STSW" then
         (stch, if stch then { g with badStCh := true } else g)
       else if a.nt == "FNCALL" then
         (stch, match lookupSym g.symtab 0 a.name with
                | some sym => if sym.loc.isNone then g.addLib a.name
                              else g
                | none => g)
       else (stch, g)) := by
    unfold LastPassPreOrder
    simp only [Node.nt, Node.a, Node.scope, Node.chl, Node.ch, Node.name,
      hfn, Bool.false_eq_true, if_false]
  rw [hbody]
  by_cases hIf : (a.nt == "IF") = true
  · have hs : (a.nt == "STSW") = false := by
      have := eq_of_beq hIf; simp [this]
    simp [hIf, hs]
  · simp only [hIf, Bool.false_eq_true, if_false]
    by_cases hLoop : (a.nt == "DO" || a.nt == "FOR" || a.nt == "WHILE")
        = true
    · have hs : (a.nt == "STSW") = false := by
        rcases Bool.or_eq_true_iff.mp hLoop with hor | h3
        · rcases Bool.or_eq_true_iff.mp hor with h1 | h2
          · have := eq_of_beq h1; simp [this]
          · have := eq_of_beq h2; simp [this]
        · have := eq_of_beq h3; simp [this]
      simp [hLoop, hs]
    · simp only [hLoop, Bool.false_eq_true, if_false]
      by_cases hs : (a.nt == "STSW") = true
      · cases hstch : stch <;> simp [hs, hstch]
      · simp only [hs, Bool.false_eq_true, if_false]
        by_cases hc : (a.nt == "FNCALL") = true
        · simp only [hc, if_true]
          have hmain : ∀ g2 : LPG,
              (match lookupSym g.symtab 0 a.name with
               | some sym => if sym.loc.isNone then g2.addLib a.name
                             else g2
               | none => g2).symtab = g2.symtab ∧
              (match lookupSym g.symtab 0 a.name with
               | some sym => if sym.loc.isNone then g2.addLib a.name
                             else g2
               | none => g2).badStCh = g2.badStCh := by
            intro g2
            cases lookupSym g.symtab 0 a.name with
            | none => exact ⟨rfl, rfl⟩
            | some sym =>
              dsimp only
              refine ⟨?_, ?_⟩ <;> by_cases hLoc : sym.loc.isNone = true
              · rw [if_pos hLoc]; exact (addLib_pres g2 a.name).1
              · rw [if_neg hLoc]
              · rw [if_pos hLoc]; exact (addLib_pres g2 a.name).2
              · rw [if_neg hLoc]
          refine ⟨(hmain g).1, ?_, by simp⟩
          simp only [hs, Bool.false_and, Bool.or_false]
          exact (hmain g).2
        · simp [hc, hs]

theorem postorder_noFNDEF (g : LPG) (n : Node)
    (hfn : (n.nt == "FNDEF") = false) :
    LastPassPostOrder g n = (n, g) := by
  unfold LastPassPostOrder
  simp [hfn]

mutual

theorem lastpass_noFNDEF (stch : Bool) (g : LPG) (n : Node)
    (h : noFNDEF n = true) :
    (RecursiveLastPass stch g n).1 = n ∧
    (RecursiveLastPass stch g n).2.symtab = g.symtab ∧
    (RecursiveLastPass stch g n).2.badStCh =
      (g.badStCh || monitoredSTSW stch n) := by
  cases n with
  | mk a ch orig =>
    have hfn : (a.nt == "FNDEF") = false := by
      cases ch with
      | none =>
        simp only [noFNDEF, Bool.not_eq_true'] at h
        simpa [Node.nt, Node.a] using h
      | some l =>
        simp only [noFNDEF, Bool.and_eq_true, Bool.not_eq_true'] at h
        simpa [Node.nt, Node.a] using h.1
    obtain ⟨hpre1, hpre2, hpre3⟩ := preorder_noFNDEF stch g a ch orig hfn
    rcases hpe : LastPassPreOrder stch g (.mk a ch orig) with ⟨stchP, gP⟩
    rw [hpe] at hpre1 hpre2 hpre3
    dsimp only at hpre1 hpre2 hpre3
    cases ch with
    | none =>
      have hrun : RecursiveLastPass stch g (.mk a none orig) =
          LastPassPostOrder gP (Node.withCh (.mk a none orig) none) := by
        unfold RecursiveLastPass
        rw [hpe]
      rw [hrun, postorder_noFNDEF _ _ (by simpa [Node.withCh] using hfn)]
      refine ⟨rfl, by simpa using hpre1, ?_⟩
      simpa [monitoredSTSW, Node.nt, Node.a] using hpre2
    | some l =>
      simp only [noFNDEF, Bool.and_eq_true, Bool.not_eq_true'] at h
      have hrec := lastpass_noFNDEFList stchP gP l h.2
      rcases hcl : RecursiveLastPassList stchP gP l with ⟨l', g2⟩
      rw [hcl] at hrec
      dsimp only at hrec
      obtain ⟨f1, f2, f3⟩ := hrec
      have hrun : RecursiveLastPass stch g (.mk a (some l) orig) =
          LastPassPostOrder g2
            (Node.withCh (.mk a (some l) orig) (some l')) := by
        unfold RecursiveLastPass
        rw [hpe]
        dsimp only
        rw [hcl]
      subst l'
      rw [hrun, postorder_noFNDEF _ _ (by simpa [Node.withCh] using hfn)]
      refine ⟨by simp [Node.withCh], by simp [f2, hpre1], ?_⟩
      show g2.badStCh = _
      rw [f3, hpre2]
      have hstch : stchP =
          (if a.nt == "FNDEF" then a.scope.isSome
           else if a.nt == "IF" then (if l.length == 2 then false else stch)
           else if a.nt == "DO" || a.nt == "FOR" || a.nt == "WHILE" then
             false
           else stch) := by
        rw [hpre3]
        simp [hfn]
      rw [monitoredSTSW, ← hstch]
      simp [Bool.or_assoc]
termination_by sizeOf n

theorem lastpass_noFNDEFList (stch : Bool) (g : LPG) (l : List Node)
    (h : noFNDEFList l = true) :
    (RecursiveLastPassList stch g l).1 = l ∧
    (RecursiveLastPassList stch g l).2.symtab = g.symtab ∧
    (RecursiveLastPassList stch g l).2.badStCh =
      (g.badStCh || monitoredSTSWList stch l) := by
  cases l with
  | nil => simp [RecursiveLastPassList, monitoredSTSWList]
  | cons hd tl =>
    simp only [noFNDEFList, Bool.and_eq_true] at h
    have h1 := lastpass_noFNDEF stch g hd h.1
    rcases he1 : RecursiveLastPass stch g hd with ⟨hd', g1⟩
    rw [he1] at h1
    dsimp only at h1
    obtain ⟨e1, e2, e3⟩ := h1
    have h2 := lastpass_noFNDEFList stch g1 tl h.2
    rcases he2 : RecursiveLastPassList stch g1 tl with ⟨tl', g2⟩
    rw [he2] at h2
    dsimp only at h2
    obtain ⟨f1, f2, f3⟩ := h2
    have hrun : RecursiveLastPassList stch g (hd :: tl) = (hd' :: tl', g2)
        := by
      unfold RecursiveLastPassList
      rw [he1]
      dsimp only
      rw [he2]
    rw [hrun]
    subst e1
    subst f1
    refine ⟨rfl, by simp [f2, e2], ?_⟩
    show g2.badStCh = _
    rw [f3, e3, monitoredSTSWList]
    simp [Bool.or_assoc]
termination_by sizeOf l

end

theorem postorder_FNDEF (g : LPG) (a : NAttrs) (body : Node)
    (hnt : a.nt = "FNDEF") :
    (LastPassPostOrder g (.mk a (some [body]) none)).1 =
      (if a.scope.isSome && g.badStCh then
        .mk a (some [wrapBody g.symtab.length a.t body]) none
      else .mk a (some [body]) none) := by
  unfold LastPassPostOrder
  simp only [Node.nt, Node.a, Node.scope, Node.chl, Node.ch, Node.t, hnt,
    beq_self_eq_true, if_true]
  by_cases hc : (a.scope.isSome && g.badStCh) = true
  · simp only [hc, if_true, Option.getD_some, List.get?]
    unfold wrapBody
    cases a.t <;> rfl
  · simp [hc]

/-- C3 counterexample: a user-defined function whose body contains a
surviving state switch, but only inside a `WHILE` loop, is left entirely
unwrapped by the last pass — refuting "contains a state-switch statement
anywhere". -/
theorem C3_counterexample :
    (RecursiveLastPass false lpgC3 fndefC3).1 = fndefC3 ∧
    fndefC3.scope.isSome ∧
    containsSTSW fndefC3 = true :=
  ⟨by with_unfolding_all rfl, rfl, by with_unfolding_all rfl⟩

/-- C3 amended: after the last pass, a user-defined function's body is
wrapped as `if (1) { body }` — with a synthetic `return` of the return
type's default value appended when the type is non-void, exactly the
`wrapBody` shape — if and only if the body contains a *monitored* state
switch: one not nested under an `IF`-without-`else`, `DO`, `FOR` or
`WHILE` (those are positions where a state change is legal, so monitoring
is switched off there); otherwise the function is left unchanged.
(`noFNDEF`: function definitions do not nest.) -/
theorem C3_stsw_wrap_characterized (stch : Bool) (g : LPG) (a : NAttrs)
    (body : Node) (hnt : a.nt = "FNDEF") (hno : noFNDEF body = true) :
    (RecursiveLastPass stch g (.mk a (some [body]) none)).1 =
      (if a.scope.isSome && monitoredSTSW a.scope.isSome body then
        .mk a (some [wrapBody g.symtab.length a.t body]) none
      else .mk a (some [body]) none) := by
  have hpre : LastPassPreOrder stch g (.mk a (some [body]) none) =
      (a.scope.isSome, { g with badStCh := false }) := by
    unfold LastPassPreOrder
    simp [Node.nt, Node.a, Node.scope, hnt]
  have hlist := lastpass_noFNDEFList a.scope.isSome
    { g with badStCh := false } [body] (by simp [noFNDEFList, hno])
  rcases hcl : RecursiveLastPassList a.scope.isSome
      { g with badStCh := false } [body] with ⟨l', g2⟩
  rw [hcl] at hlist
  dsimp only at hlist
  obtain ⟨f1, f2, f3⟩ := hlist
  subst l'
  have hrun : RecursiveLastPass stch g (.mk a (some [body]) none) =
      LastPassPostOrder g2
        (Node.withCh (.mk a (some [body]) none) (some [body])) := by
    unfold RecursiveLastPass
    rw [hpre]
    dsimp only
    rw [hcl]
  have hbad : g2.badStCh = monitoredSTSW a.scope.isSome body := by
    rw [f3]
    simp [monitoredSTSWList]
  rw [hrun]
  show (LastPassPostOrder g2 (.mk a (some [body]) none)).1 = _
  rw [postorder_FNDEF g2 a body hnt, hbad, f2]

theorem C3_wrap_witness :
    (RecursiveLastPass false lpgC3
        (.mk attrsC3w (some [fndefBodyC3w]) none)).1 =
      .mk attrsC3w
        (some [wrapBody lpgC3.symtab.length (some "integer") fndefBodyC3w])
        none := by
  have h := C3_stsw_wrap_characterized false lpgC3 attrsC3w fndefBodyC3w
    rfl rfl
  rw [h]
  with_unfolding_all rfl

theorem C5_amended_witness :
    ∃ e, CastDL2S
        (Node.mk { nt := "LIST", t := some "list", sef := true }
          (some [Node.mk { nt := "CONST", t := some "integer",
                           value := .int 1, sef := true } none none])
          none) 0 = some e ∧
      OptimizeFuncDumpList2String dumpCallC5w = e :=
  (C5_single_element_rewrite
    { nt := "FNCALL", t := some "string", name := "llDumpList2String",
      sef := true }
    (Node.mk { nt := "LIST", t := some "list", sef := true }
      (some [Node.mk { nt := "CONST", t := some "integer",
                       value := .int 1, sef := true } none none]) none)
    (Node.mk { nt := "CONST", t := some "string", value := .str ",",
               sef := true } none none) rfl).2.1 rfl rfl

/-- **C1, counterexample.**  The claim says the `ref` count of every label
equals the number of surviving `JUMP` nodes targeting it after
`RemoveDeadCode`.  On the parsed program
`f() { @lbl; jump lbl; }  default { timer() { ; } }` the unexecuted
function `f` is deleted whole by the main loop, which never decrements the
refs of `JUMP`s nested inside deleted top-level subtrees: label `lbl`
(scope 2) ends with `ref = 1` while `0` `JUMP` nodes survive. -/
theorem C1_counterexample :
    (RemoveDeadCode 20 false stC1).map
      (fun st => (refOf st.symtab 2 "lbl", jumpsInList 2 "lbl" st.tree))
      = some (1, 0) := by
  with_unfolding_all rfl

/-- **C1, amended.**  After `RemoveDeadCode`, every label's `ref` count is
an over-approximation: at least the number of surviving `JUMP` nodes that
target it.  The hypotheses pin the intermediate state `stm` produced by the
mark phase and ask that the invariant held there (the parser establishes
it: each parsed `jump` bumps `ref` once), that its symbol table stores no
writer containing a `JUMP` (writers are expressions), and that the label
lives in an inner scope (`0 < sc`; scope 0 holds globals, whose removal
bookkeeping does not touch label entries). -/
theorem C1_label_ref_overapprox (fuel : Nat) (shrinknames : Bool)
    (st : St) (dsym : Sym) (loc : Nat) (xv : Option Bool) (stm : St)
    (sc : Nat) (nm : String) (st' : St)
    (hd : lookupSym st.symtab 0 "default" = some dsym)
    (hloc : dsym.loc = some loc)
    (hmark : markRef fuel st ⟨loc, []⟩ = some (xv, stm))
    (hWJF : WJumpFreeB stm.symtab = true)
    (hinit : (jumpsInList sc nm stm.tree : Int) ≤ refOf stm.symtab sc nm)
    (hsc : 0 < sc)
    (hrun : RemoveDeadCode fuel shrinknames st = some st') :
    (jumpsInList sc nm st'.tree : Int) ≤ refOf st'.symtab sc nm := by
  unfold RemoveDeadCode at hrun
  dsimp only [bind, Monad.toBind, instMonadOption, Option.bind,
    pure, Applicative.toPure, Alternative.toApplicative,
    instAlternativeOption] at hrun
  rw [hd] at hrun
  dsimp only [Option.bind] at hrun
  rw [hloc] at hrun
  dsimp only [Option.bind] at hrun
  cases hsd : (st.tree.get? loc : Option Node) with
  | none =>
    rw [hsd] at hrun
    exact Option.noConfusion hrun
  | some statedef =>
    rw [hsd] at hrun
    dsimp only [Option.bind] at hrun
    by_cases hguard : ((statedef.nt == "STDEF"
        && statedef.name == "default") = true)
    · rw [if_pos hguard] at hrun
      rw [hmark] at hrun
      dsimp only [Option.bind] at hrun
      cases hdc : dcrLoop fuel shrinknames stm.symtab
          (stm.tree.zip (List.range stm.tree.length)) with
      | none =>
        rw [hdc] at hrun
        exact Option.noConfusion hrun
      | some trip =>
        rw [hdc] at hrun
        obtain ⟨entries, gdels, symtab'⟩ := trip
        dsimp only [Option.bind] at hrun
        have HD := dcrLoop_count fuel shrinknames sc nm
          (stm.tree.zip (List.range stm.tree.length)) stm.symtab
          (entries, gdels, symtab') hdc hWJF
        have hmz : (stm.tree.zip (List.range stm.tree.length)).map
            Prod.fst = stm.tree :=
          List.map_fst_zip _ _ (by rw [List.length_range])
        rw [hmz] at HD
        dsimp only at HD
        injection hrun with hrun
        subst hrun
        dsimp only
        have hconv : (entries.map fun e : Node × Nat => e.1)
            = entries.map Prod.fst := rfl
        rw [hconv]
        cases symtab' with
        | nil =>
          dsimp only
          have := HD.1
          omega
        | cons s0 rests =>
          dsimp only
          have hrefEq : ∀ z : Scope,
              refOf (z :: rests) sc nm = refOf (s0 :: rests) sc nm := by
            intro z
            cases sc with
            | zero => omega
            | succ k =>
              unfold refOf lookupSym
              rw [List.get?_cons_succ, List.get?_cons_succ]
          rw [hrefEq]
          have := HD.1
          omega
    · rw [if_neg hguard] at hrun
      exact Option.noConfusion hrun

/-- **C1, witness for the amended theorem.**  Concrete run on `stC1`:
after the mark phase the invariant holds (`ref = 1`, one `JUMP` in the
marked tree), and the conclusion gives `0 ≤ 1` on the final state. -/
theorem C1_overapprox_witness :
    (jumpsInList 2 "lbl" stFinalC1.tree : Int) ≤
      refOf stFinalC1.symtab 2 "lbl" :=
  C1_label_ref_overapprox 20 false stC1 { kind := 's', loc := some 1 } 1
    (some true) stmC1 2 "lbl" stFinalC1
    (by with_unfolding_all rfl) rfl
    (by with_unfolding_all rfl)
    (by with_unfolding_all rfl)
    (by with_unfolding_all decide)
    (by decide)
    (by with_unfolding_all rfl)

/-- **C9.**  Two runs of the compilation pipeline — parse, the
per-call-site library optimization, the dead-code pass and the last pass,
from one token stream and option set — produce equal ASTs, symbol tables
and used-library sets.  The pipeline's only run-to-run varying input is
the Python-2 hash enumeration order of the scope-0 dict iterated by the
dead-code pass's `Loc` reassignment loop (lsldeadcode.py line 571; every
other collection the embedded sources iterate is an ordered list, and the
used-library set is order-insensitive by construction).  The theorem
quantifies over the two runs' enumeration orders: any two valid hash
enumerations — permutations of the dict's (duplicate-free) key list —
yield identical outputs, so the observables never depend on the hash
seed.  `PipelineRun` genuinely depends on `order` for invalid
enumerations, so the statement is not congruence. -/
theorem C9_pipeline_deterministic (condKey : String → Bool) (fuel : Nat)
    (opts : Options) (toks : List Tok) (order1 order2 : List String)
    (h1 : ∀ ks, PipelineDicKeys condKey fuel opts toks = some ks →
      order1.Perm ks ∧ ks.Nodup)
    (h2 : ∀ ks, PipelineDicKeys condKey fuel opts toks = some ks →
      order2.Perm ks ∧ ks.Nodup) :
    PipelineRun condKey fuel opts order1 toks
      = PipelineRun condKey fuel opts order2 toks :=
  (PipelineRun_eq_canonical condKey fuel opts toks order1 h1).trans
    (PipelineRun_eq_canonical condKey fuel opts toks order2 h2).symm

set_option maxHeartbeats 10000000 in
/-- **C9, witness.**  On `f() { ; }  default { timer() { ; } }` the
reassignment loop enumerates two scope-0 names; the two possible hash
enumerations give identical pipeline outputs. -/
theorem C9_witness :
    PipelineRun (fun _ => false) 60 {} ["f", "default"] toksC9
      = PipelineRun (fun _ => false) 60 {} ["default", "f"] toksC9 := by
  have hc : PipelineDicKeys (fun _ => false) 60 {} toksC9
      = some ["f", "default"] := by with_unfolding_all rfl
  exact C9_pipeline_deterministic (fun _ => false) 60 {} toksC9
    ["f", "default"] ["default", "f"]
    (fun ks hks => by
      rw [hc] at hks
      injection hks with hks
      subst hks
      exact ⟨by decide, by decide⟩)
    (fun ks hks => by
      rw [hc] at hks
      injection hks with hks
      subst hks
      exact ⟨by decide, by decide⟩)

end LSLOpt
